import Mathlib

/-!
Verification of the physician entity-resolution core.

This file gives a shallow embedding, in Lean 4, of the record-linkage engine
of the `healthcare-entity-resolution` repository: pairwise similarity scoring
(`matching/similarity.py`), match classification (`matching/classifier.py`),
identity-graph construction (`graph/builder.py`), the pruning pipeline
(`graph/pruning.py`), connected-component clustering (`graph/clustering.py`),
cluster quality (`graph/quality.py`) and canonicalization
(`canonicalization/confidence.py`, `canonicalization/merge.py`,
`canonicalization/ids.py`).

Modelling conventions:
- Python floats are modelled as exact rationals (`ℚ`); every arithmetic
  expression is transcribed literally from the source.
- Python `None` becomes `Option.none`; Python string truthiness (`if s:`)
  is `pyTruthy`/`pyFalsy` below (falsy iff `None` or the empty string).
- External third-party string/geodesic primitives (jellyfish Jaro-Winkler,
  rapidfuzz ratio, the trigonometric core of the haversine distance) are
  parameters of the embedding (`ExternalFns`); everything the repository
  itself computes is transcribed.
- The mutable `networkx` graph becomes an explicit value (`Graph` below:
  a node table plus an edge table keyed by unordered endpoint pair);
  in-place edge removal becomes a filter over the edge table.
- Code that can raise returns `Except`; a Python dict result that can be
  `{}` becomes an `Option` of a fixed-field structure.
-/

namespace PhysRes

/-! ### Python string primitives used by the source -/

/-- Python truthiness of an optional string: `None` and `""` are falsy. -/
def pyFalsy : Option String → Bool
  | none => true
  | some s => s == ""

/-- Python `str.strip()` default whitespace set (space, tab, LF, VT, FF, CR). -/
def isPyWS (c : Char) : Bool :=
  c.val.toNat == 32 || c.val.toNat == 9 || c.val.toNat == 10 ||
  c.val.toNat == 11 || c.val.toNat == 12 || c.val.toNat == 13

/-- Python `str.isdigit()` restricted to ASCII (the NPI alphabet). -/
def pyIsDigit (c : Char) : Bool :=
  48 ≤ c.val.toNat && c.val.toNat ≤ 57

/-- Python `str.strip()`: drop leading and trailing whitespace. -/
def pyStrip (s : String) : String :=
  ⟨((s.data.dropWhile isPyWS).reverse.dropWhile isPyWS).reverse⟩

/-- Python `s.isdigit()` over a whole string (nonempty and all digits). -/
def pyIsDigitStr (s : String) : Bool :=
  s.data.all pyIsDigit

/-- Python `str.upper()` (ASCII model). -/
def pyUpper (s : String) : String := s.toUpper

/-- Remove apostrophes, hyphens and spaces, as
`l.replace("'", "").replace("-", "").replace(" ", "")` does in
`calculate_last_name_similarity`. -/
def removeApostropheHyphenSpace (s : String) : String :=
  ⟨s.data.filter (fun c => !(c.val.toNat == 39 || c.val.toNat == 45 || c.val.toNat == 32))⟩

/-! ### Data model (`schemas/records.py`, `schemas/matches.py`) -/

/-- `PhysicianRecord` from `schemas/records.py` (the fields the matching core
reads; coordinates as exact rationals). -/
structure PhysicianRecord where
  source : String
  source_id : String
  npi : Option String := none
  name_raw : Option String := none
  name_first : Option String := none
  name_last : Option String := none
  name_middle : Option String := none
  name_suffix : Option String := none
  specialty : Option String := none
  facility_name : Option String := none
  facility_address : Option String := none
  facility_city : Option String := none
  facility_state : Option String := none
  facility_zip : Option String := none
  latitude : Option ℚ := none
  longitude : Option ℚ := none
deriving DecidableEq, Repr

/-- `SimilarityScores` from `schemas/matches.py`; the tri-state
`npi_match`/`specialty_match` are `Option ℚ` (`None` = unknown). -/
structure SimilarityScores where
  npi_match : Option ℚ := none
  name_similarity : ℚ := 0
  specialty_match : Option ℚ := none
  location_score : ℚ := 0
  overall_score : ℚ := 0
deriving DecidableEq, Repr

/-- `MatchDecision` from `schemas/matches.py`. -/
inductive MatchDecision where
  | MATCH
  | NON_MATCH
  | UNCERTAIN
deriving DecidableEq, Repr

/-- `PipelineConfig` from `config.py` (defaults as in the source). -/
structure PipelineConfig where
  match_threshold : ℚ := 85/100
  non_match_threshold : ℚ := 30/100
  min_edge_weight : ℚ := 40/100
  max_cluster_size : Nat := 100
  prune_npi_conflicts : Bool := true
  use_soundex_blocking : Bool := true
  include_uncertain_matches : Bool := false
deriving DecidableEq, Repr

/-- The external, third-party primitives the similarity scorer calls:
jellyfish `jaro_winkler_similarity`, rapidfuzz `fuzz.ratio` (scaled to
`[0,1]` by the caller), and the trigonometric haversine core of
`calculate_distance_miles` (both coordinate pairs present). -/
structure ExternalFns where
  jaroWinkler : String → String → ℚ
  fuzzRatioFn : String → String → ℚ
  haversineMiles : ℚ → ℚ → ℚ → ℚ → ℚ

/-! ### `etl/geocoder.py` (the part the scorer uses) -/

/-- `calculate_distance_miles`: `None` if any coordinate is missing, else the
haversine distance (external trigonometric core). -/
def calculate_distance_miles (ext : ExternalFns) :
    Option ℚ → Option ℚ → Option ℚ → Option ℚ → Option ℚ
  | some lat1, some lon1, some lat2, some lon2 =>
      some (ext.haversineMiles lat1 lon1 lat2 lon2)
  | _, _, _, _ => none

/-! ### `matching/similarity.py` -/

/-- `calculate_first_name_similarity`: neutral 0.5 when either is missing,
1.0 exact, 0.8 single-letter initial match, else Jaro-Winkler. -/
def calculate_first_name_similarity (ext : ExternalFns)
    (first1 first2 : Option String) : ℚ :=
  if pyFalsy first1 || pyFalsy first2 then 1/2
  else if pyStrip (pyUpper (first1.getD (""))) ==
      pyStrip (pyUpper (first2.getD (""))) then 1
  else if (pyStrip (pyUpper (first1.getD ("")))).length == 1 &&
      (pyStrip (pyUpper (first2.getD ("")))).startsWith
        (pyStrip (pyUpper (first1.getD ("")))) then 8/10
  else if (pyStrip (pyUpper (first2.getD ("")))).length == 1 &&
      (pyStrip (pyUpper (first1.getD ("")))).startsWith
        (pyStrip (pyUpper (first2.getD ("")))) then 8/10
  else ext.jaroWinkler (pyStrip (pyUpper (first1.getD (""))))
    (pyStrip (pyUpper (first2.getD (""))))

/-- `calculate_last_name_similarity`: 0.0 when either is missing; strip
apostrophes/hyphens/spaces; 1.0 on normalized equality, else Jaro-Winkler on
the normalized strings. -/
def calculate_last_name_similarity (ext : ExternalFns)
    (last1 last2 : Option String) : ℚ :=
  if pyFalsy last1 || pyFalsy last2 then 0
  else if removeApostropheHyphenSpace (pyStrip (pyUpper (last1.getD ("")))) ==
      removeApostropheHyphenSpace (pyStrip (pyUpper (last2.getD ("")))) then 1
  else ext.jaroWinkler
    (removeApostropheHyphenSpace (pyStrip (pyUpper (last1.getD ("")))))
    (removeApostropheHyphenSpace (pyStrip (pyUpper (last2.getD ("")))))

/-- `calculate_location_score`: distance bands when both coordinate pairs are
present, else state comparison, else neutral 0.2. -/
def calculate_location_score (ext : ExternalFns)
    (lat1 lon1 lat2 lon2 : Option ℚ) (state1 state2 : Option String) : ℚ :=
  match calculate_distance_miles ext lat1 lon1 lat2 lon2 with
  | some distance =>
      if distance < 1/2 then 1
      else if distance < 10 then 8/10
      else if distance < 50 then 5/10
      else if distance < 100 then 3/10
      else 1/10
  | none =>
      if !(pyFalsy state1) && !(pyFalsy state2) then
        if pyUpper (state1.getD ("")) == pyUpper (state2.getD ("")) then 3/10 else 1/10
      else 2/10

/-- The curated specialty synonym table of `calculate_specialty_similarity`,
in source order. -/
def specialtyMappings : List (String × List String) :=
  [(("INTERNAL MEDICINE"), [("INTERNAL MED"), ("INT MEDICINE"), ("IM")]),
   (("FAMILY MEDICINE"), [("FAMILY MED"), ("FAMILY PRACTICE"), ("FP")]),
   (("CARDIOLOGY"), [("CARDIOVASCULAR DISEASE"), ("CARDIOVASCULAR MED"), ("CV")]),
   (("ORTHOPEDIC SURGERY"), [("ORTHOPAEDIC SURGERY"), ("ORTHOPEDICS"), ("ORTHO")]),
   (("GENERAL SURGERY"), [("SURGERY"), ("GEN SURGERY")]),
   (("PEDIATRICS"), [("PEDIATRIC MEDICINE"), ("PEDS")]),
   (("OBSTETRICS & GYNECOLOGY"), [("OB/GYN"), ("OB-GYN"), ("OBSTETRICS AND GYNECOLOGY")]),
   (("GASTROENTEROLOGY"), [("GI"), ("GASTRO"), ("GI MEDICINE")]),
   (("EMERGENCY MEDICINE"), [("ER"), ("EMERGENCY MED"), ("EM")])]

/-- `get_canonical` inside `calculate_specialty_similarity`: first canonical
whose name or variant list matches, else the input itself. -/
def getCanonicalSpecialty (spec : String) : String :=
  match specialtyMappings.find? (fun p => p.1 == spec || p.2.contains spec) with
  | some p => p.1
  | none => spec

/-- `calculate_specialty_similarity`: `None` if either missing; 1.0 on exact
or synonym-group equality; fuzzy ratio when above 0.8; else 0.0. -/
def calculate_specialty_similarity (ext : ExternalFns)
    (spec1 spec2 : Option String) : Option ℚ :=
  if pyFalsy spec1 || pyFalsy spec2 then none
  else if pyStrip (pyUpper (spec1.getD (""))) ==
      pyStrip (pyUpper (spec2.getD (""))) then some 1
  else if getCanonicalSpecialty (pyStrip (pyUpper (spec1.getD ("")))) ==
      getCanonicalSpecialty (pyStrip (pyUpper (spec2.getD ("")))) then some 1
  else if ext.fuzzRatioFn (pyStrip (pyUpper (spec1.getD (""))))
      (pyStrip (pyUpper (spec2.getD ("")))) > 8/10 then
    some (ext.fuzzRatioFn (pyStrip (pyUpper (spec1.getD (""))))
      (pyStrip (pyUpper (spec2.getD ("")))))
  else some 0

/-- `calculate_npi_match`: 1.0 equal well-formed, 0.0 conflicting well-formed,
`None` otherwise (missing or malformed after stripping). -/
def calculate_npi_match (npi1 npi2 : Option String) : Option ℚ :=
  if pyFalsy npi1 || pyFalsy npi2 then none
  else if !((pyStrip (npi1.getD (""))).length == 10) ||
      !((pyStrip (npi2.getD (""))).length == 10) then none
  else if !(pyIsDigitStr (pyStrip (npi1.getD ("")))) ||
      !(pyIsDigitStr (pyStrip (npi2.getD ("")))) then none
  else if pyStrip (npi1.getD ("")) == pyStrip (npi2.getD ("")) then some 1
  else some 0

/-- `_calculate_overall_score`: NPI match forces 0.95, NPI conflict forces
0.0; otherwise 0.50 name + 0.30 location + 0.20 specialty (the specialty
weight re-added to name when unknown), capped at 1. -/
def calculate_overall_score (npi_match : Option ℚ) (name_similarity : ℚ)
    (location_score : ℚ) (specialty_match : Option ℚ) : ℚ :=
  if npi_match == some 1 then 95/100
  else if npi_match == some 0 then 0
  else
    let score := name_similarity * (50/100) + location_score * (30/100)
    let score :=
      match specialty_match with
      | some s => score + s * (20/100)
      | none => score + name_similarity * (20/100)
    min score 1

/-- `calculate_similarity`: the full per-pair scoring. -/
def calculate_similarity (ext : ExternalFns)
    (record1 record2 : PhysicianRecord) : SimilarityScores :=
  let npi_match := calculate_npi_match record1.npi record2.npi
  let last_sim := calculate_last_name_similarity ext record1.name_last record2.name_last
  let first_sim := calculate_first_name_similarity ext record1.name_first record2.name_first
  let name_similarity := last_sim * (6/10) + first_sim * (4/10)
  let location_score := calculate_location_score ext
    record1.latitude record1.longitude record2.latitude record2.longitude
    record1.facility_state record2.facility_state
  let specialty_match := calculate_specialty_similarity ext record1.specialty record2.specialty
  let overall_score := calculate_overall_score npi_match name_similarity
    location_score specialty_match
  { npi_match := npi_match
    name_similarity := name_similarity
    specialty_match := specialty_match
    location_score := location_score
    overall_score := overall_score }

/-! ### `matching/classifier.py` -/

/-- `classify_match`: NPI conflict ⇒ (NonMatch, 1.0); NPI match ⇒
(Match, 0.95); else threshold bands on the overall score. -/
def classify_match (scores : SimilarityScores) (config : PipelineConfig) :
    MatchDecision × ℚ :=
  let overall := scores.overall_score
  if scores.npi_match == some 0 then (MatchDecision.NON_MATCH, 1)
  else if scores.npi_match == some 1 then (MatchDecision.MATCH, 95/100)
  else if overall ≥ config.match_threshold then
    (MatchDecision.MATCH,
      min ((overall - config.match_threshold) / (1 - config.match_threshold) + 7/10) (95/100))
  else if overall ≤ config.non_match_threshold then
    (MatchDecision.NON_MATCH,
      min ((config.non_match_threshold - overall) / config.non_match_threshold + 7/10) (95/100))
  else
    let mid := (config.match_threshold + config.non_match_threshold) / 2
    let distance_from_mid := |overall - mid|
    (MatchDecision.UNCERTAIN, 3/10 + distance_from_mid * (4/10))

/-- A well-formed NPI value: present and exactly 10 ASCII digits. -/
def wfNpi : Option String → Bool
  | none => false
  | some s => s.length == 10 && pyIsDigitStr s

/-! ### Identity graph (`graph/builder.py`)

The `networkx` graph is modelled as a node table (id, attribute snapshot)
plus an edge table keyed by unordered endpoint pair. -/

/-- The node attribute snapshot `build_identity_graph` stores per record. -/
structure NodeData where
  source : String
  npi : Option String := none
  name_raw : Option String := none
  name_first : Option String := none
  name_last : Option String := none
  specialty : Option String := none
  facility_name : Option String := none
  facility_state : Option String := none
deriving DecidableEq, Repr

/-- An undirected edge with the attributes `build_identity_graph` stores. -/
structure Edge where
  u : String
  v : String
  weight : ℚ
  match_type : String
  sources : String
deriving DecidableEq, Repr

/-- `e` is keyed by the unordered pair `{x, y}`. -/
def Edge.sameKey (e : Edge) (x y : String) : Bool :=
  (e.u == x && e.v == y) || (e.u == y && e.v == x)

/-- The identity graph: node table plus edge table. -/
structure Graph where
  nodes : List (String × NodeData)
  edges : List Edge
deriving DecidableEq, Repr

/-- The node ids of a graph. -/
def Graph.ids (G : Graph) : List String := G.nodes.map Prod.fst

/-- Attribute lookup `G.nodes[n]`. -/
def Graph.nodeData (G : Graph) (n : String) : Option NodeData :=
  (G.nodes.find? (fun p => p.1 == n)).map Prod.snd

/-- `G.nodes[n].get("npi")` (None when the node is absent; cluster members
are always graph nodes). -/
def Graph.npiOf (G : Graph) (n : String) : Option String :=
  (G.nodeData n).bind (fun nd => nd.npi)

/-- `G.nodes[n].get("source", "unknown")`. -/
def Graph.sourceOf (G : Graph) (n : String) : String :=
  match G.nodeData n with
  | some nd => nd.source
  | none => ("unknown")

/-- `networkx` `remove_edge(u, v)`: drop the edge keyed by `{u, v}`. -/
def Graph.removeEdge (G : Graph) (x y : String) : Graph :=
  { G with edges := G.edges.filter (fun e => !(e.sameKey x y)) }

/-- Well-formedness guaranteed by `networkx` and the builder: node ids are
unique and every edge endpoint is a node. -/
def Graph.WF (G : Graph) : Prop :=
  (G.nodes.map Prod.fst).Nodup ∧ ∀ e ∈ G.edges, e.u ∈ G.ids ∧ e.v ∈ G.ids

instance (G : Graph) : Decidable G.WF := by
  unfold Graph.WF; infer_instance

/-- `networkx` `add_node`: insert, or overwrite the attributes of an
existing id. -/
def addNode (nodes : List (String × NodeData)) (id : String) (nd : NodeData) :
    List (String × NodeData) :=
  if nodes.any (fun p => p.1 == id) then
    nodes.map (fun p => if p.1 == id then (id, nd) else p)
  else nodes ++ [(id, nd)]

/-- `networkx` `add_edge`: insert, or overwrite the edge with the same
unordered key. -/
def addEdge (edges : List Edge) (e : Edge) : List Edge :=
  if edges.any (fun e2 => e2.sameKey e.u e.v) then
    edges.map (fun e2 => if e2.sameKey e.u e.v then e else e2)
  else edges ++ [e]

/-- The attribute snapshot taken at `G.add_node(...)` in
`build_identity_graph`. -/
def toNodeData (r : PhysicianRecord) : NodeData :=
  { source := r.source
    npi := r.npi
    name_raw := r.name_raw
    name_first := r.name_first
    name_last := r.name_last
    specialty := r.specialty
    facility_name := r.facility_name
    facility_state := r.facility_state }

/-- `record_lookup = {r.source_id: r for r in records}` (last record with a
given id wins). -/
def recordLookup (records : List PhysicianRecord) (id : String) :
    Option PhysicianRecord :=
  records.reverse.find? (fun r => r.source_id == id)

/-- `_determine_edge_type` from `graph/builder.py`. -/
def determine_edge_type (rec1 rec2 : Option PhysicianRecord) (confidence : ℚ) :
    String :=
  match rec1, rec2 with
  | some r1, some r2 =>
      if !(pyFalsy r1.npi) && !(pyFalsy r2.npi) && r1.npi == r2.npi then ("npi_exact")
      else if confidence ≥ 85/100 then ("name_strong")
      else if confidence ≥ 6/10 then ("name_moderate")
      else ("weak")
  | _, _ => ("unknown")

/-- The `sources` edge attribute set by `build_identity_graph`. -/
def edgeSourcesAttr (rec1 rec2 : Option PhysicianRecord) : String :=
  match rec1, rec2 with
  | some r1, some r2 => r1.source ++ ("|") ++ r2.source
  | _, _ => ("unknown")

/-- The loop body of the edge pass of `build_identity_graph`: add the edge
for a confirmed match only when both endpoints exist as nodes. -/
def buildEdgeStep (nodes : List (String × NodeData))
    (records : List PhysicianRecord) (es : List Edge)
    (m : String × String × ℚ) : List Edge :=
  if nodes.any (fun p => p.1 == m.1) && nodes.any (fun p => p.1 == m.2.1) then
    let rec1 := recordLookup records m.1
    let rec2 := recordLookup records m.2.1
    addEdge es
      { u := m.1
        v := m.2.1
        weight := m.2.2
        match_type := determine_edge_type rec1 rec2 m.2.2
        sources := edgeSourcesAttr rec1 rec2 }
  else es

/-- `build_identity_graph` from `graph/builder.py`: one node per record, and
one edge per confirmed match whose two endpoints both exist as nodes (a
match referencing a missing id is skipped). -/
def build_identity_graph (records : List PhysicianRecord)
    (matchList : List (String × String × ℚ)) : Graph :=
  let nodes := records.foldl (fun ns r => addNode ns r.source_id (toNodeData r)) []
  { nodes := nodes
    edges := matchList.foldl (buildEdgeStep nodes records) [] }

/-! ### Connectivity (`networkx.connected_components`)

Executable reachability over the edge table: saturate a frontier under
adjacency; `|V| + 1` rounds always reach the fixpoint. -/

/-- Two ids are adjacent when some edge joins them (either orientation). -/
def adjB (E : List Edge) (x y : String) : Bool :=
  E.any (fun e => (e.u == x && e.v == y) || (e.u == y && e.v == x))

/-- The adjacency proposition. -/
def Adj (E : List Edge) (x y : String) : Prop :=
  ∃ e ∈ E, (e.u = x ∧ e.v = y) ∨ (e.u = y ∧ e.v = x)

/-- Reachability: the reflexive-transitive closure of adjacency. -/
def ReachP (E : List Edge) : String → String → Prop :=
  Relation.ReflTransGen (Adj E)

/-- One saturation round: append every vertex of `V` adjacent to the current
set and not yet in it. -/
def expandOnce (V : List String) (E : List Edge) (s : List String) : List String :=
  s ++ V.filter (fun y => !(s.contains y) && s.any (fun x => adjB E x y))

/-- The vertices of `V` reachable from `x` (plus `x` itself): `|V| + 1`
saturation rounds. -/
def reachList (V : List String) (E : List Edge) (x : String) : List String :=
  (expandOnce V E)^[V.length + 1] [x]

/-- The connected component of `x`, listed in node-table order. -/
def Graph.compOf (G : Graph) (x : String) : List String :=
  G.ids.filter (fun y => (reachList G.ids G.edges x).contains y)

/-- `nx.connected_components`: peel off the component of the first pending
node, then recurse on the still-uncovered pending nodes. -/
def Graph.componentsFrom (G : Graph) : List String → List (List String)
  | [] => []
  | x :: rest =>
      let c := G.compOf x
      c :: G.componentsFrom (rest.filter (fun y => !(c.contains y)))
termination_by l => l.length
decreasing_by
  simp only [List.length_cons]
  exact Nat.lt_succ_of_le (List.length_filter_le _ _)

/-- `find_clusters` from `graph/clustering.py`: the connected components,
sorted by descending size (stable sort, as `list.sort` is). -/
def find_clusters (G : Graph) : List (List String) :=
  (G.componentsFrom G.ids).mergeSort (fun c1 c2 => decide (c2.length ≤ c1.length))

/-! ### Pruning pipeline (`graph/pruning.py`) -/

/-- `G.subgraph(cluster).edges`: the edges with both endpoints in the
cluster. -/
def subEdges (G : Graph) (c : List String) : List Edge :=
  G.edges.filter (fun e => c.contains e.u && c.contains e.v)

/-- `prune_low_confidence_edges`: remove every edge of weight below the
threshold. -/
def prune_low_confidence_edges (G : Graph) (threshold : ℚ) : Graph :=
  { G with edges := G.edges.filter (fun e => !(e.weight < threshold)) }

/-- The distinct truthy NPI values of a cluster: the key set of the `npis`
dict built by `prune_npi_conflicts` (`if npi:` keeps non-empty strings). -/
def clusterNpiSet (G : Graph) (c : List String) : Finset String :=
  ((c.filterMap (fun n => G.npiOf n)).filter (fun s => !(s == ""))).toFinset

/-- A cluster has an NPI conflict when it holds at least two distinct truthy
NPIs (`len(npis) > 1`). -/
def hasConflictB (G : Graph) (c : List String) : Bool :=
  decide (1 < (clusterNpiSet G c).card)

/-- The distinct well-formed (10-digit) NPI values of a cluster. -/
def clusterWfNpiSet (G : Graph) (c : List String) : Finset String :=
  ((c.filterMap (fun n => G.npiOf n)).filter
    (fun s => s.length == 10 && pyIsDigitStr s)).toFinset

/-- The edge condition of `_find_weakest_cross_npi_edge`: the `if` branch
(two distinct truthy NPIs) or the `elif` branch (at least one truthy NPI). -/
def npiEdgeCandidate (G : Graph) (e : Edge) : Bool :=
  let uN := G.npiOf e.u
  let vN := G.npiOf e.v
  let uT := !(pyFalsy uN)
  let vT := !(pyFalsy vN)
  let crossNpi := uT && vT && !(uN == vN)
  crossNpi || (!crossNpi && (uT || vT))

/-- The strict-minimum fold shared by the weakest-edge searches: take the
first candidate, then replace only on strictly smaller weight (Python's
`< weakest_weight` against an `inf` start). -/
def weakestStep (cand : Edge → Bool) (best : Option Edge) (e : Edge) :
    Option Edge :=
  if cand e then
    match best with
    | none => some e
    | some b => if e.weight < b.weight then some e else b
  else best

/-- `_find_weakest_cross_npi_edge`: over the cluster's subgraph edges, the
first strictly-lightest edge that either joins two distinct truthy NPIs, or
touches at least one truthy-NPI node. -/
def find_weakest_cross_npi_edge (G : Graph) (c : List String) : Option Edge :=
  (subEdges G c).foldl (weakestStep (npiEdgeCandidate G)) none

/-- One test-and-remove round of the `prune_npi_conflicts` `while True` loop:
`none` when no cluster (descending-size order) has a conflict, else the graph
after removing the chosen cross-NPI edge of the first conflicted cluster
(removing nothing if no such edge exists, as the source would). -/
def npiConflictStep (G : Graph) : Option Graph :=
  match (find_clusters G).find? (fun c => hasConflictB G c) with
  | none => none
  | some c =>
      match find_weakest_cross_npi_edge G c with
      | none => some G
      | some e => some (G.removeEdge e.u e.v)

/-- The `prune_npi_conflicts` loop with explicit fuel (each conflicted round
removes an edge, so `|E| + 1` rounds always reach the exit; see the
termination theorems). -/
def pruneNpiLoop : Nat → Graph → Graph
  | 0, G => G
  | n + 1, G =>
      match npiConflictStep G with
      | none => G
      | some G2 => pruneNpiLoop n G2

/-- `prune_npi_conflicts` from `graph/pruning.py`. -/
def prune_npi_conflicts (G : Graph) : Graph :=
  pruneNpiLoop (G.edges.length + 1) G

/-- The weakest-edge search of `prune_oversized_clusters` (first strict
minimum over the cluster's subgraph edges, no candidate condition). -/
def findWeakestEdge (G : Graph) (c : List String) : Option Edge :=
  (subEdges G c).foldl (weakestStep (fun _ => true)) none

/-- The exit condition of the `prune_npi_conflicts` loop: no cluster has an
NPI conflict. -/
def noConflict (G : Graph) : Prop :=
  ∀ c ∈ find_clusters G, hasConflictB G c = false

/-- One pass of `prune_oversized_clusters`: for every oversized cluster (the
list computed before the pass), remove the weakest edge of its subgraph in
the current graph. -/
def oversizedPass (G : Graph) (oversized : List (List String)) : Graph :=
  oversized.foldl
    (fun g c =>
      match findWeakestEdge g c with
      | some e => g.removeEdge e.u e.v
      | none => g)
    G

/-- The `prune_oversized_clusters` loop (`while iterations < max_iterations`):
returns the graph and the number of passes performed. -/
def pruneOversizedIter (max_size : Nat) : Nat → Graph → Graph × Nat
  | 0, G => (G, 0)
  | n + 1, G =>
      let oversized := (find_clusters G).filter (fun c => max_size < c.length)
      if oversized.isEmpty then (G, 0)
      else
        let r := pruneOversizedIter max_size n (oversizedPass G oversized)
        (r.1, r.2 + 1)

/-- `prune_oversized_clusters` from `graph/pruning.py` (`max_iterations =
1000`). -/
def prune_oversized_clusters (G : Graph) (max_size : Nat) : Graph :=
  (pruneOversizedIter max_size 1000 G).1

/-- An edge of the cluster's subgraph is a bridge when its removal
disconnects its endpoints inside the cluster (the characterization
`nx.bridges` computes). -/
def bridges (G : Graph) (c : List String) : List Edge :=
  (subEdges G c).filter
    (fun e =>
      !((reachList c ((subEdges G c).filter (fun e2 => !(e2.sameKey e.u e.v))) e.u).contains
        e.v))

/-- `prune_weak_bridges` from `graph/pruning.py`: for every cluster of size
above 2 (clusters computed once, up front), remove each bridge of weight
below the threshold. -/
def prune_weak_bridges (G : Graph) (threshold : ℚ) : Graph :=
  (find_clusters G).foldl
    (fun g c =>
      if c.length ≤ 2 then g
      else
        (bridges g c).foldl
          (fun g2 e => if e.weight < threshold then g2.removeEdge e.u e.v else g2)
          g)
    G

/-- `full_pruning_pipeline` from `graph/pruning.py`: low-confidence removal
at `0.75 × min_edge_weight`, NPI-conflict resolution (when enabled),
oversized-cluster splitting, weak-bridge removal at `min_edge_weight`. -/
def full_pruning_pipeline (G : Graph) (min_edge_weight : ℚ)
    (max_cluster_size : Nat) (prune_conflicts : Bool) : Graph :=
  let G1 := prune_low_confidence_edges G (min_edge_weight * (75/100))
  let G2 := if prune_conflicts then prune_npi_conflicts G1 else G1
  let G3 := prune_oversized_clusters G2 max_cluster_size
  prune_weak_bridges G3 min_edge_weight

/-! ### Cluster quality (`graph/quality.py`) -/

/-- `ClusterQuality` from `schemas/clusters.py`. -/
structure ClusterQuality where
  cluster_id : String
  size : Nat
  avg_edge_weight : ℚ
  min_edge_weight : ℚ
  density : ℚ
  npi_count : Nat
  npi_conflict : Bool
  state_count : Nat
  specialty_count : Nat
  quality_score : ℚ
  warnings : List String
deriving DecidableEq, Repr

/-- The non-empty fixed-key dict returned by `get_quality_summary`. -/
structure QualitySummary where
  total_clusters : Nat
  avg_quality_score : ℚ
  min_quality_score : ℚ
  max_quality_score : ℚ
  npi_conflict_count : Nat
  clusters_with_warnings : Nat
  high_quality_count : Nat
  medium_quality_count : Nat
  low_quality_count : Nat
deriving DecidableEq, Repr

/-- `get_quality_summary` from `graph/quality.py`; the empty-input `{}`
result is `none`. -/
def get_quality_summary (qualities : List ClusterQuality) :
    Option QualitySummary :=
  if qualities.isEmpty then none
  else
    let scores := qualities.map (fun q => q.quality_score)
    some
      { total_clusters := qualities.length
        avg_quality_score := scores.sum / (scores.length : ℚ)
        min_quality_score := (scores.min?).getD 0
        max_quality_score := (scores.max?).getD 0
        npi_conflict_count := (qualities.filter (fun q => q.npi_conflict)).length
        clusters_with_warnings := (qualities.filter (fun q => !q.warnings.isEmpty)).length
        high_quality_count := (scores.filter (fun s => decide (8/10 ≤ s))).length
        medium_quality_count :=
          (scores.filter (fun s => decide (1/2 ≤ s) && decide (s < 8/10))).length
        low_quality_count := (scores.filter (fun s => decide (s < 1/2))).length }

/-! ### Canonicalization (`canonicalization/ids.py`, `confidence.py`,
`merge.py`) -/

/-- The distinct truthy source values of a cluster (`if source:`). -/
def clusterSourceSet (G : Graph) (c : List String) : Finset String :=
  ((c.filterMap (fun n => (G.nodeData n).map (fun nd => nd.source))).filter
    (fun s => !(s == ""))).toFinset

/-- `_source_confidence` from `canonicalization/confidence.py`: the
reliability map keyed by the code's source enum, defaulting to 0.5. -/
def source_confidence (source : String) : ℚ :=
  if source == "cms" then 85/100
  else if source == "license" then 80/100
  else if source == "hospital" then 70/100
  else if source == "publication" then 50/100
  else 1/2

/-- `calculate_entity_confidence` from `canonicalization/confidence.py`. -/
def calculate_entity_confidence (G : Graph) (cluster : List String) : ℚ :=
  if cluster.length == 1 then
    source_confidence (G.sourceOf (cluster.headD ("")))
  else
    let weights := (subEdges G cluster).map (fun e => e.weight)
    if weights.isEmpty then 3/10
    else
      let avg_weight := weights.sum / (weights.length : ℚ)
      let min_weight := (weights.min?).getD 0
      let max_edges : ℚ :=
        ((cluster.length : ℚ) * ((cluster.length : ℚ) - 1)) / 2
      let density := if 0 < max_edges then (weights.length : ℚ) / max_edges else 0
      let npi_score : ℚ := if (clusterNpiSet G cluster).card ≤ 1 then 1 else 3/10
      let source_diversity := min (((clusterSourceSet G cluster).card : ℚ) / 3) 1
      let confidence :=
        avg_weight * (30/100) + min_weight * (15/100) + density * (15/100) +
          npi_score * (25/100) + source_diversity * (15/100)
      min (max confidence 0) 1

/-- First-occurrence deduplication (the key order of a Python dict /
`collections.Counter`). -/
def firstOccs : List String → List String
  | [] => []
  | x :: xs => x :: firstOccs (xs.filter (fun y => !(y == x)))
termination_by l => l.length
decreasing_by
  simp only [List.length_cons]
  exact Nat.lt_succ_of_le (List.length_filter_le _ _)

/-- Occurrence count of a value in a list. -/
def countOcc (l : List String) (x : String) : Nat :=
  (l.filter (fun y => y == x)).length

/-- `Counter(l).most_common(1)[0][0]`: the most frequent value, earliest
first occurrence on ties. -/
def mostCommon (l : List String) : Option String :=
  (firstOccs l).foldl
    (fun best x =>
      match best with
      | none => some x
      | some b => if countOcc l b < countOcc l x then some x else best)
    none

/-- `_generate_canonical_id` from `canonicalization/ids.py`; `freshHex`
stands for the 12-hex-character output of `uuid.uuid4()` when the cluster
has no well-formed NPI. -/
def generate_canonical_id (freshHex : String) (G : Graph)
    (cluster : List String) : String :=
  let npis := (cluster.filterMap (fun n => G.npiOf n)).filter
    (fun s => !(s == "") && s.length == 10 && pyIsDigitStr s)
  match mostCommon npis with
  | some npi => ("PHY_") ++ npi
  | none => ("PHY_") ++ freshHex

/-- `CanonicalPhysician` from `schemas/entities.py`. -/
structure CanonicalPhysician where
  canonical_id : String
  confidence : ℚ
  npi : Option String := none
  name : Option String := none
  specialty : Option String := none
  primary_facility : Option String := none
  city : Option String := none
  state : Option String := none
  all_facilities : List String := []
  source_records : List String := []
  source_count : Nat := 0
deriving DecidableEq, Repr

/-- `SOURCE_PRIORITY` from `canonicalization/merge.py`. -/
def sourcePriority (source : String) : Nat :=
  if source == "cms" then 4
  else if source == "license" then 3
  else if source == "hospital" then 2
  else if source == "publication" then 1
  else 0

/-- `_select_npi`: most common valid (10-digit) NPI. -/
def select_npi (npis : List String) : Option String :=
  let valid := npis.filter (fun n => n.length == 10 && pyIsDigitStr n)
  mostCommon valid

/-- `_select_name`: highest (priority, length) pair, earliest on ties
(stable descending sort, first element). -/
def select_name (names : List (String × Nat × String)) : Option String :=
  match names with
  | [] => none
  | n :: rest =>
      some ((rest.foldl
        (fun b x =>
          if b.2.1 < x.2.1 || (b.2.1 == x.2.1 && b.1.length < x.1.length) then x else b)
        n).1)

/-- `_select_specialty`: group by upper-stripped key; most common key
(earliest on ties), then the highest-priority raw variant. -/
def select_specialty (specialties : List (String × Nat)) : Option String :=
  match specialties with
  | [] => none
  | _ =>
      let keys := firstOccs (specialties.map (fun p => pyStrip (pyUpper p.1)))
      let groupOf := fun (k : String) =>
        specialties.filter (fun p => pyStrip (pyUpper p.1) == k)
      let bestKey := keys.foldl
        (fun best k =>
          match best with
          | none => some k
          | some b => if (groupOf b).length < (groupOf k).length then some k else best)
        none
      match bestKey with
      | none => none
      | some k =>
          match groupOf k with
          | [] => none
          | v :: vs =>
              some ((vs.foldl (fun b x => if b.2 < x.2 then x else b) v).1)

/-- `_select_facility`: most common stripped facility, then highest
priority, earliest first occurrence on ties. -/
def select_facility (facilities : List (String × Nat)) : Option String :=
  match facilities with
  | [] => none
  | _ =>
      let stripped := facilities.map (fun p => (pyStrip p.1, p.2))
      let keys := firstOccs (stripped.map (fun p => p.1))
      let cnt := fun (k : String) => (stripped.filter (fun p => p.1 == k)).length
      let pri := fun (k : String) =>
        (stripped.filter (fun p => p.1 == k)).foldl (fun m p => max m p.2) 0
      keys.foldl
        (fun best k =>
          match best with
          | none => some k
          | some b =>
              if cnt b < cnt k || (cnt b == cnt k && pri b < pri k) then some k else best)
        none

/-- `_select_most_common`: most common stripped truthy value. -/
def select_most_common (values : List String) : Option String :=
  mostCommon ((values.filter (fun v => !(v == ""))).map pyStrip)

/-- `merge_cluster_attributes` from `canonicalization/merge.py`. -/
def merge_cluster_attributes (freshHex : String) (G : Graph)
    (cluster : List String) : CanonicalPhysician :=
  let canonical_id := generate_canonical_id freshHex G cluster
  let confidence := calculate_entity_confidence G cluster
  let attrsOf := fun (n : String) => G.nodeData n
  let npis := cluster.filterMap (fun n =>
    (attrsOf n).bind (fun nd => if pyFalsy nd.npi then none else nd.npi))
  let names := cluster.filterMap (fun n =>
    (attrsOf n).bind (fun nd =>
      if pyFalsy nd.name_raw then none
      else some (nd.name_raw.getD (""), sourcePriority nd.source,
        nd.name_last.getD (""))))
  let specialties := cluster.filterMap (fun n =>
    (attrsOf n).bind (fun nd =>
      if pyFalsy nd.specialty then none
      else some (nd.specialty.getD (""), sourcePriority nd.source)))
  let facilities := cluster.filterMap (fun n =>
    (attrsOf n).bind (fun nd =>
      if pyFalsy nd.facility_name then none
      else some (nd.facility_name.getD (""), sourcePriority nd.source)))
  let states := cluster.filterMap (fun n =>
    (attrsOf n).bind (fun nd =>
      if pyFalsy nd.facility_state then none else nd.facility_state))
  { canonical_id := canonical_id
    confidence := confidence
    npi := select_npi npis
    name := select_name names
    specialty := select_specialty specialties
    primary_facility := select_facility facilities
    city := select_most_common []
    state := select_most_common states
    all_facilities := firstOccs (facilities.map (fun p => p.1))
    source_records := cluster
    source_count := cluster.length }

/-- `merge_all_clusters` from `canonicalization/merge.py`: merges every
cluster, then logs summary statistics whose percentage line divides by
`len(physicians)` — a `ZeroDivisionError` when there are no clusters.
`freshHex i` models the `uuid.uuid4()` hex drawn for the `i`-th cluster. -/
def merge_all_clusters (freshHex : Nat → String) (G : Graph)
    (clusters : List (List String)) : Except String (List CanonicalPhysician) :=
  let physicians := clusters.enum.map
    (fun p => merge_cluster_attributes (freshHex p.1) G p.2)
  if physicians.length == 0 then Except.error ("ZeroDivisionError")
  else Except.ok physicians

/-! ### Concrete instances used to exercise the theorems -/

/-- A record whose `source` is the spec's "claims" label (the code's map
only knows "cms"). -/
def claimsGraph : Graph :=
  { nodes := [(("R1"), { source := ("claims") })], edges := [] }

/-- A graph with one node of each source label the code knows. -/
def sourcesGraph : Graph :=
  { nodes :=
      [(("R1"), { source := ("cms") }),
       (("R2"), { source := ("license") }),
       (("R3"), { source := ("hospital") }),
       (("R4"), { source := ("publication") })]
    edges := [] }

/-- A single record with id "A". -/
def recA : PhysicianRecord := { source := ("cms"), source_id := ("A") }

/-- A second record with id "B". -/
def recB : PhysicianRecord := { source := ("license"), source_id := ("B") }

/-- Records "C" and "D" sharing an NPI. -/
def recC : PhysicianRecord :=
  { source := ("cms"), source_id := ("C"), npi := some ("1234567890") }

/-- See `recC`. -/
def recD : PhysicianRecord :=
  { source := ("license"), source_id := ("D"), npi := some ("1234567890") }

/-- The edge `build_identity_graph` creates for the match ("C","D",0.9)
between `recC` and `recD`. -/
def edgeCD : Edge :=
  { u := ("C"), v := ("D"), weight := 9/10, match_type := ("npi_exact")
    sources := ("cms|license") }

/-- A trivially symmetric external-function pack. -/
def constExt : ExternalFns :=
  { jaroWinkler := fun _ _ => 1/2
    fuzzRatioFn := fun _ _ => 1/2
    haversineMiles := fun _ _ _ _ => 0 }

/-- A pair of records with the same well-formed NPI. -/
def recNpi1 : PhysicianRecord :=
  { source := ("cms"), source_id := ("N1"), npi := some ("1234567890") }

/-- A record with a different well-formed NPI. -/
def recNpi2 : PhysicianRecord :=
  { source := ("license"), source_id := ("N2"), npi := some ("1234567890") }

/-- A record with a conflicting well-formed NPI. -/
def recNpi3 : PhysicianRecord :=
  { source := ("license"), source_id := ("N3"), npi := some ("9999999999") }

/-- A two-node, one-edge graph with conflicting NPIs: the smallest graph on
which the NPI-conflict pruning loop fires. -/
def conflictGraph : Graph :=
  { nodes :=
      [(("N1"), { source := ("cms"), npi := some ("1234567890") }),
       (("N3"), { source := ("license"), npi := some ("9999999999") })]
    edges :=
      [{ u := ("N1"), v := ("N3"), weight := 9/10, match_type := ("name_strong")
         sources := ("cms|license") }] }

end PhysRes

namespace PhysRes

/-! ## Theorems

### String-primitive lemmas -/

theorem isPyWS_eq_false_of_digit {c : Char} (h : pyIsDigit c = true) :
    isPyWS c = false := by
  unfold pyIsDigit at h
  unfold isPyWS
  simp only [Bool.and_eq_true, decide_eq_true_eq] at h
  simp only [Bool.or_eq_false_iff, beq_eq_false_iff_ne, ne_eq]
  omega

theorem dropWhile_eq_self_of_digits {l : List Char}
    (h : l.all pyIsDigit = true) : l.dropWhile isPyWS = l := by
  cases l with
  | nil => rfl
  | cons c t =>
      simp only [List.all_cons, Bool.and_eq_true] at h
      simp [List.dropWhile_cons, isPyWS_eq_false_of_digit h.1]

theorem pyStrip_of_digits {s : String} (h : pyIsDigitStr s = true) :
    pyStrip s = s := by
  unfold pyIsDigitStr at h
  unfold pyStrip
  have h2 : s.data.reverse.all pyIsDigit = true := by
    simpa using h
  rw [dropWhile_eq_self_of_digits h, dropWhile_eq_self_of_digits h2,
    List.reverse_reverse]

theorem pyFalsy_eq_false_of_wf {o : Option String} (h : wfNpi o = true) :
    pyFalsy o = false := by
  cases o with
  | none => simp [wfNpi] at h
  | some s =>
      unfold wfNpi at h
      simp only [Bool.and_eq_true, beq_iff_eq] at h
      unfold pyFalsy
      simp only [beq_eq_false_iff_ne, ne_eq]
      intro hs
      rw [hs] at h
      simp [String.length] at h

/-- `calculate_npi_match` on two well-formed NPIs: 1.0 when equal, 0.0
otherwise. -/
theorem calculate_npi_match_wf {o1 o2 : Option String} (h1 : wfNpi o1 = true)
    (h2 : wfNpi o2 = true) :
    calculate_npi_match o1 o2 = if o1 = o2 then some 1 else some 0 := by
  cases o1 with
  | none => simp [wfNpi] at h1
  | some s1 =>
      cases o2 with
      | none => simp [wfNpi] at h2
      | some s2 =>
          unfold wfNpi at h1 h2
          simp only [Bool.and_eq_true, beq_iff_eq] at h1 h2
          have hf1 : pyFalsy (some s1) = false := by
            apply pyFalsy_eq_false_of_wf
            unfold wfNpi
            simp [h1.1, h1.2]
          have hf2 : pyFalsy (some s2) = false := by
            apply pyFalsy_eq_false_of_wf
            unfold wfNpi
            simp [h2.1, h2.2]
          unfold calculate_npi_match
          rw [hf1, hf2]
          simp only [Bool.or_self, if_false, Option.getD_some,
            pyStrip_of_digits h1.2, pyStrip_of_digits h2.2, h1.1, h2.1,
            h1.2, h2.2]
          simp [beq_iff_eq]

/-! ### Projections of `calculate_similarity` -/

theorem calculate_similarity_npi_match (ext : ExternalFns)
    (a b : PhysicianRecord) :
    (calculate_similarity ext a b).npi_match =
      calculate_npi_match a.npi b.npi := rfl

theorem calculate_similarity_overall (ext : ExternalFns)
    (a b : PhysicianRecord) :
    (calculate_similarity ext a b).overall_score =
      calculate_overall_score (calculate_npi_match a.npi b.npi)
        (calculate_last_name_similarity ext a.name_last b.name_last * (6/10) +
          calculate_first_name_similarity ext a.name_first b.name_first * (4/10))
        (calculate_location_score ext a.latitude a.longitude b.latitude
          b.longitude a.facility_state b.facility_state)
        (calculate_specialty_similarity ext a.specialty b.specialty) := rfl

/-! ### Claim C3 -/

/-- Claim C3: for every pair of records whose NPIs are both well-formed
(exactly 10 digits) and every threshold configuration: equal NPIs give
`overall_score = 0.95` and classification `(Match, 0.95)`; unequal NPIs give
`overall_score = 0.0` and classification `(NonMatch, 1.0)`, regardless of the
name, location and specialty signals (the external primitives are fully
universally quantified). -/
theorem npi_override (ext : ExternalFns) (a b : PhysicianRecord)
    (config : PipelineConfig) (ha : wfNpi a.npi = true)
    (hb : wfNpi b.npi = true) :
    (a.npi = b.npi →
      (calculate_similarity ext a b).overall_score = 95/100 ∧
      classify_match (calculate_similarity ext a b) config =
        (MatchDecision.MATCH, 95/100)) ∧
    (a.npi ≠ b.npi →
      (calculate_similarity ext a b).overall_score = 0 ∧
      classify_match (calculate_similarity ext a b) config =
        (MatchDecision.NON_MATCH, 1)) := by
  have hnm := calculate_npi_match_wf ha hb
  constructor
  · intro heq
    rw [if_pos heq] at hnm
    constructor
    · rw [calculate_similarity_overall, hnm]
      unfold calculate_overall_score
      norm_num
    · unfold classify_match
      rw [calculate_similarity_npi_match, hnm]
      norm_num
  · intro hne
    rw [if_neg hne] at hnm
    constructor
    · rw [calculate_similarity_overall, hnm]
      unfold calculate_overall_score
      norm_num
    · unfold classify_match
      rw [calculate_similarity_npi_match, hnm]
      norm_num

/-- Witness for C3: two records sharing NPI 1234567890 classify as
(Match, 0.95) with overall 0.95, and a conflicting pair as (NonMatch, 1). -/
theorem npi_override_witness :
    ((calculate_similarity constExt recNpi1 recNpi2).overall_score = 95/100 ∧
      classify_match (calculate_similarity constExt recNpi1 recNpi2) {} =
        (MatchDecision.MATCH, 95/100)) ∧
    ((calculate_similarity constExt recNpi1 recNpi3).overall_score = 0 ∧
      classify_match (calculate_similarity constExt recNpi1 recNpi3) {} =
        (MatchDecision.NON_MATCH, 1)) :=
  ⟨(npi_override constExt recNpi1 recNpi2 {} (by decide) (by decide)).1 rfl,
   (npi_override constExt recNpi1 recNpi3 {} (by decide) (by decide)).2
     (by decide)⟩

/-! ### Claim C6 -/

/-- Claim C6: with unknown NPI and thresholds `0 < non_match_threshold <
match_threshold < 1`, `classify_match` returns Match with confidence
`min(0.95, 0.7 + (overall − mt)/(1 − mt))` when `overall ≥ mt`, NonMatch
with confidence `min(0.95, 0.7 + (nmt − overall)/nmt)` when
`overall ≤ nmt`, else Uncertain with confidence
`0.3 + 0.4·|overall − midpoint|`. -/
theorem classify_match_bands (scores : SimilarityScores)
    (config : PipelineConfig) (hnpi : scores.npi_match = none)
    (h0 : 0 < config.non_match_threshold)
    (h1 : config.non_match_threshold < config.match_threshold)
    (h2 : config.match_threshold < 1) :
    (scores.overall_score ≥ config.match_threshold →
      classify_match scores config =
        (MatchDecision.MATCH,
          min (95/100)
            (7/10 + (scores.overall_score - config.match_threshold) /
              (1 - config.match_threshold)))) ∧
    (scores.overall_score ≤ config.non_match_threshold →
      classify_match scores config =
        (MatchDecision.NON_MATCH,
          min (95/100)
            (7/10 + (config.non_match_threshold - scores.overall_score) /
              config.non_match_threshold))) ∧
    (config.non_match_threshold < scores.overall_score →
      scores.overall_score < config.match_threshold →
      classify_match scores config =
        (MatchDecision.UNCERTAIN,
          3/10 + (4/10) *
            |scores.overall_score -
              (config.match_threshold + config.non_match_threshold) / 2|)) := by
  refine ⟨fun hm => ?_, fun hn => ?_, fun hu1 hu2 => ?_⟩
  · unfold classify_match
    rw [hnpi]
    rw [if_neg (by simp), if_neg (by simp), if_pos hm]
    rw [min_comm, add_comm]
  · unfold classify_match
    rw [hnpi]
    rw [if_neg (by simp), if_neg (by simp),
      if_neg (by simp only [ge_iff_le, not_le]; linarith), if_pos hn]
    rw [min_comm, add_comm]
  · unfold classify_match
    rw [hnpi]
    rw [if_neg (by simp), if_neg (by simp),
      if_neg (by simp only [ge_iff_le, not_le]; linarith),
      if_neg (by simp only [not_le]; linarith)]
    rw [mul_comm]

/-- Witness for C6: the default thresholds and an overall score in each of
the three bands. -/
theorem classify_match_bands_witness :
    classify_match { overall_score := 9/10 } {} =
      (MatchDecision.MATCH, min (95/100) (7/10 + (9/10 - 85/100) / (1 - 85/100))) ∧
    classify_match { overall_score := 1/10 } {} =
      (MatchDecision.NON_MATCH, min (95/100) (7/10 + (30/100 - 1/10) / (30/100))) ∧
    classify_match { overall_score := 1/2 } {} =
      (MatchDecision.UNCERTAIN, 3/10 + (4/10) * |1/2 - (85/100 + 30/100) / 2|) :=
  ⟨(classify_match_bands { overall_score := 9/10 } {} rfl (by norm_num)
      (by norm_num) (by norm_num)).1 (by norm_num),
   (classify_match_bands { overall_score := 1/10 } {} rfl (by norm_num)
      (by norm_num) (by norm_num)).2.1 (by norm_num),
   (classify_match_bands { overall_score := 1/2 } {} rfl (by norm_num)
      (by norm_num) (by norm_num)).2.2 (by norm_num) (by norm_num)⟩

/-! ### Claim C8 -/

/-- Counterexample for C8 as stated: a singleton cluster whose record's
`source` is the spec-enum value "claims" gets the 0.5 default from
`_source_confidence`, not the 0.85 the claim assigns to a claims record
(the code's map is keyed "cms"/"license"/"hospital"/"publication"). -/
theorem singleton_confidence_claims_counterexample :
    calculate_entity_confidence claimsGraph [("R1")] = 1/2 ∧
    ¬ calculate_entity_confidence claimsGraph [("R1")] = 85/100 := by
  constructor
  · rfl
  · intro h
    rw [show calculate_entity_confidence claimsGraph [("R1")] = 1/2 from rfl] at h
    norm_num at h

/-- Claim C8, amended: for every singleton cluster the entity confidence is
the base rate `_source_confidence` assigns to the record's source value
under the code's source enum: cms 0.85, license 0.80, hospital 0.70,
publication 0.50 (anything else 0.5). -/
theorem singleton_confidence_source_base (G : Graph) (x : String) :
    (G.sourceOf x = ("cms") → calculate_entity_confidence G [x] = 85/100) ∧
    (G.sourceOf x = ("license") → calculate_entity_confidence G [x] = 80/100) ∧
    (G.sourceOf x = ("hospital") → calculate_entity_confidence G [x] = 70/100) ∧
    (G.sourceOf x = ("publication") → calculate_entity_confidence G [x] = 50/100) := by
  have hbase : calculate_entity_confidence G [x] = source_confidence (G.sourceOf x) := by
    unfold calculate_entity_confidence
    norm_num [List.headD]
  refine ⟨fun h => ?_, fun h => ?_, fun h => ?_, fun h => ?_⟩ <;>
    rw [hbase, h] <;> rfl

/-- Witness for the amended C8: one singleton per source label of the
code's enum. -/
theorem singleton_confidence_source_base_witness :
    calculate_entity_confidence sourcesGraph [("R1")] = 85/100 ∧
    calculate_entity_confidence sourcesGraph [("R2")] = 80/100 ∧
    calculate_entity_confidence sourcesGraph [("R3")] = 70/100 ∧
    calculate_entity_confidence sourcesGraph [("R4")] = 50/100 :=
  ⟨(singleton_confidence_source_base sourcesGraph (("R1"))).1 rfl,
   (singleton_confidence_source_base sourcesGraph (("R2"))).2.1 rfl,
   (singleton_confidence_source_base sourcesGraph (("R3"))).2.2.1 rfl,
   (singleton_confidence_source_base sourcesGraph (("R4"))).2.2.2 rfl⟩

/-! ### Claim C2 -/

theorem addEdge_forall {P : Edge → Prop} {es : List Edge} {e : Edge}
    (hes : ∀ x ∈ es, P x) (he : P e) : ∀ x ∈ addEdge es e, P x := by
  intro x hx
  unfold addEdge at hx
  split at hx
  · rcases List.mem_map.1 hx with ⟨y, hy, hxy⟩
    by_cases hk : (y.sameKey e.u e.v) = true
    · simp only [if_pos hk] at hxy
      exact hxy ▸ he
    · simp only [hk, if_false] at hxy
      exact hxy ▸ hes y hy
  · rcases List.mem_append.1 hx with h | h
    · exact hes x h
    · rcases List.mem_singleton.1 h with rfl
      exact he

theorem buildEdgeStep_foldl_inv (nodes : List (String × NodeData))
    (records : List PhysicianRecord) :
    ∀ (ms : List (String × String × ℚ)) (es : List Edge),
      (∀ x ∈ es, x.u ∈ nodes.map Prod.fst ∧ x.v ∈ nodes.map Prod.fst) →
      ∀ e ∈ ms.foldl (buildEdgeStep nodes records) es,
        e.u ∈ nodes.map Prod.fst ∧ e.v ∈ nodes.map Prod.fst := by
  intro ms
  induction ms with
  | nil => intro es hes; simpa using hes
  | cons m rest ih =>
      intro es hes e he
      rw [List.foldl_cons] at he
      refine ih _ ?_ e he
      unfold buildEdgeStep
      split
      · next hcond =>
          simp only [Bool.and_eq_true, List.any_eq_true, beq_iff_eq] at hcond
          refine addEdge_forall hes ?_
          constructor
          · rcases hcond.1 with ⟨p, hp, hpe⟩
            exact List.mem_map.2 ⟨p, hp, hpe⟩
          · rcases hcond.2 with ⟨p, hp, hpe⟩
            exact List.mem_map.2 ⟨p, hp, hpe⟩
      · exact hes

/-- Counterexample for C2 as stated: a confirmed match referencing the
absent id "B" does not fail loudly — `build_identity_graph` returns a normal
graph that silently lacks the edge. -/
theorem build_graph_missing_endpoint_counterexample :
    (build_identity_graph [recA] [(("A"), ("B"), 9/10)]).edges = [] ∧
    (build_identity_graph [recA] [(("A"), ("B"), 9/10)]).nodes =
      [(("A"), toNodeData recA)] := by
  constructor <;> rfl

/-- Claim C2, amended: `build_identity_graph` is total; a confirmed match is
turned into an edge only when both endpoints exist as nodes, and a match
referencing a missing id is silently skipped (every edge of the built graph
has both endpoints among the node ids). -/
theorem build_graph_edges_endpoints_exist (records : List PhysicianRecord)
    (matchList : List (String × String × ℚ)) :
    ∀ e ∈ (build_identity_graph records matchList).edges,
      e.u ∈ (build_identity_graph records matchList).ids ∧
      e.v ∈ (build_identity_graph records matchList).ids := by
  intro e he
  exact buildEdgeStep_foldl_inv _ records matchList [] (by simp) e he

/-- Witness for the amended C2: the one edge built from a valid match has
both endpoints among the node ids. -/
theorem build_graph_edges_endpoints_exist_witness :
    edgeCD ∈ (build_identity_graph [recC, recD] [(("C"), ("D"), 9/10)]).edges ∧
    (edgeCD.u ∈ (build_identity_graph [recC, recD] [(("C"), ("D"), 9/10)]).ids ∧
      edgeCD.v ∈ (build_identity_graph [recC, recD] [(("C"), ("D"), 9/10)]).ids) := by
  have hmem : edgeCD ∈ (build_identity_graph [recC, recD]
      [(("C"), ("D"), 9/10)]).edges := by
    rw [show (build_identity_graph [recC, recD] [(("C"), ("D"), 9/10)]).edges =
      [edgeCD] from rfl]
    exact List.mem_singleton.2 rfl
  exact ⟨hmem,
    build_graph_edges_endpoints_exist [recC, recD] [(("C"), ("D"), 9/10)]
      edgeCD hmem⟩

/-! ### Reachability: the executable closure computes `ReachP` -/

theorem contains_iff_mem {l : List String} {x : String} :
    l.contains x = true ↔ x ∈ l := by
  simp [List.contains, List.elem_iff]

theorem adjB_iff {E : List Edge} {x y : String} :
    adjB E x y = true ↔ Adj E x y := by
  unfold adjB Adj
  simp [List.any_eq_true]

theorem Adj.symm {E : List Edge} {x y : String} (h : Adj E x y) : Adj E y x := by
  obtain ⟨e, he, h1 | h2⟩ := h
  · exact ⟨e, he, Or.inr h1⟩
  · exact ⟨e, he, Or.inl h2⟩

theorem reachP_symm {E : List Edge} {x y : String} (h : ReachP E x y) :
    ReachP E y x :=
  Relation.ReflTransGen.symmetric (fun _ _ ha => Adj.symm ha) h

theorem subset_expandOnce (V : List String) (E : List Edge) (s : List String) :
    s ⊆ expandOnce V E s := by
  unfold expandOnce
  exact fun _ h => List.mem_append.2 (Or.inl h)

theorem mem_expandOnce {V : List String} {E : List Edge} {s : List String}
    {y : String} (h : y ∈ expandOnce V E s) :
    y ∈ s ∨ (y ∈ V ∧ ∃ z ∈ s, Adj E z y) := by
  unfold expandOnce at h
  rcases List.mem_append.1 h with h | h
  · exact Or.inl h
  · rcases List.mem_filter.1 h with ⟨hV, hcond⟩
    simp only [Bool.and_eq_true, List.any_eq_true] at hcond
    obtain ⟨z, hz, hadj⟩ := hcond.2
    exact Or.inr ⟨hV, z, hz, adjB_iff.1 hadj⟩

theorem expandOnce_nodup {V : List String} {E : List Edge} {s : List String}
    (hV : V.Nodup) (hs : s.Nodup) : (expandOnce V E s).Nodup := by
  unfold expandOnce
  refine List.Nodup.append hs (hV.filter _) ?_
  rw [List.disjoint_left]
  intro a ha hafil
  rcases List.mem_filter.1 hafil with ⟨_, hcond⟩
  simp only [Bool.and_eq_true, Bool.not_eq_true'] at hcond
  have : a ∈ s := ha
  rw [← contains_iff_mem] at this
  rw [this] at hcond
  exact absurd hcond.1 (by simp)

theorem append_ne_length_lt {s t : List String} (h : s ++ t ≠ s) :
    s.length < (s ++ t).length := by
  cases t with
  | nil => simp at h
  | cons a t2 =>
      rw [List.length_append, List.length_cons]
      omega

theorem expandOnce_length_lt {V : List String} {E : List Edge}
    {s : List String} (h : expandOnce V E s ≠ s) :
    s.length < (expandOnce V E s).length := by
  unfold expandOnce at h ⊢
  exact append_ne_length_lt h

theorem expandOnce_fix_closed {V : List String} {E : List Edge}
    {s : List String} (hfix : expandOnce V E s = s) :
    ∀ y ∈ V, (∃ z ∈ s, Adj E z y) → y ∈ s := by
  intro y hyV ⟨z, hz, hadj⟩
  by_contra hys
  unfold expandOnce at hfix
  rw [List.append_right_eq_self, List.filter_eq_nil_iff] at hfix
  refine hfix y hyV ?_
  simp only [Bool.and_eq_true, Bool.not_eq_true', List.any_eq_true]
  constructor
  · rw [← Bool.not_eq_true, contains_iff_mem]
    exact hys
  · exact ⟨z, hz, adjB_iff.2 hadj⟩

theorem iterate_expandOnce_subset (V : List String) (E : List Edge)
    (s : List String) : ∀ n, s ⊆ (expandOnce V E)^[n] s := by
  intro n
  induction n with
  | zero => simp
  | succ n ih =>
      rw [Function.iterate_succ']
      exact fun a ha => subset_expandOnce V E _ (ih ha)

theorem iterate_expandOnce_mem (V : List String) (E : List Edge)
    (s : List String) (n : Nat) :
    ∀ y ∈ (expandOnce V E)^[n] s, y ∈ s ∨ y ∈ V := by
  induction n with
  | zero => exact fun y hy => Or.inl (by simpa using hy)
  | succ n ih =>
      rw [Function.iterate_succ']
      intro y hy
      rcases mem_expandOnce hy with h | h
      · exact ih y h
      · exact Or.inr h.1

theorem iterate_expandOnce_nodup {V : List String} {E : List Edge}
    {s : List String} (hV : V.Nodup) (hs : s.Nodup) (n : Nat) :
    ((expandOnce V E)^[n] s).Nodup := by
  induction n with
  | zero => simpa
  | succ n ih =>
      rw [Function.iterate_succ']
      exact expandOnce_nodup hV ih

theorem nodup_length_le {l l2 : List String} (hl : l.Nodup) (hsub : l ⊆ l2) :
    l.length ≤ l2.length := by
  calc l.length = l.toFinset.card := (List.toFinset_card_of_nodup hl).symm
    _ ≤ l2.toFinset.card := by
        refine Finset.card_le_card ?_
        intro a ha
        rw [List.mem_toFinset] at ha ⊢
        exact hsub ha
    _ ≤ l2.length := List.toFinset_card_le l2

theorem iterate_fix_stable {V : List String} {E : List Edge}
    {s : List String} (hfix : expandOnce V E s = s) :
    ∀ n, (expandOnce V E)^[n] s = s := by
  intro n
  induction n with
  | zero => rfl
  | succ n ih => rw [Function.iterate_succ', Function.comp_apply, ih, hfix]

theorem reachList_fix {V : List String} {E : List Edge} {x : String}
    (hV : V.Nodup) : expandOnce V E (reachList V E x) = reachList V E x := by
  by_contra hne
  -- without a fixpoint among the first |V|+1 iterates, lengths grow past the
  -- bound |V| + 1
  have grow : ∀ n : Nat, n ≤ V.length + 1 →
      (∀ k : Nat, k < n → (expandOnce V E) ((expandOnce V E)^[k] [x]) ≠
        (expandOnce V E)^[k] [x]) →
      n + 1 ≤ ((expandOnce V E)^[n] [x]).length := by
    intro n
    induction n with
    | zero => simp
    | succ n ih =>
        intro hn hall
        have h1 : n + 1 ≤ ((expandOnce V E)^[n] [x]).length :=
          ih (by omega) (fun k hk => hall k (by omega))
        have h2 := expandOnce_length_lt (hall n (by omega))
        rw [Function.iterate_succ', Function.comp_apply]
        omega
  have hbound : ∀ n : Nat, ((expandOnce V E)^[n] [x]).length ≤ V.length + 1 := by
    intro n
    have hnd : ((expandOnce V E)^[n] [x]).Nodup :=
      iterate_expandOnce_nodup hV (by simp) n
    have hsub : (expandOnce V E)^[n] [x] ⊆ x :: V := by
      intro a ha
      rcases iterate_expandOnce_mem V E [x] n a ha with h | h
      · simp at h; simp [h]
      · exact List.mem_cons_of_mem x h
    have := nodup_length_le hnd hsub
    simpa using this
  -- if there were no fixpoint among k ≤ |V|, the bound is violated at |V|+1;
  -- so some iterate is a fixpoint, and the final iterate equals it
  by_cases hfx : ∃ k : Nat, k ≤ V.length ∧
      (expandOnce V E) ((expandOnce V E)^[k] [x]) = (expandOnce V E)^[k] [x]
  · obtain ⟨k, hk, hfixk⟩ := hfx
    have hstable : ∀ m : Nat, (expandOnce V E)^[k + m] [x] =
        (expandOnce V E)^[k] [x] := by
      intro m
      rw [Nat.add_comm, Function.iterate_add_apply]
      exact iterate_fix_stable hfixk m
    have heq : reachList V E x = (expandOnce V E)^[k] [x] := by
      unfold reachList
      have : V.length + 1 = k + (V.length + 1 - k) := by omega
      rw [this, hstable]
    rw [heq] at hne
    exact hne hfixk
  · push_neg at hfx
    have hall : ∀ k : Nat, k < V.length + 1 →
        (expandOnce V E) ((expandOnce V E)^[k] [x]) ≠
          (expandOnce V E)^[k] [x] := by
      intro k hk
      exact hfx k (by omega)
    have h1 := grow (V.length + 1) (by omega) hall
    have h2 := hbound (V.length + 1)
    omega

theorem mem_reachList_self (V : List String) (E : List Edge) (x : String) :
    x ∈ reachList V E x :=
  iterate_expandOnce_subset V E [x] (V.length + 1) (by simp)

theorem reachP_of_mem_iterate {V : List String} {E : List Edge} {x : String} :
    ∀ (n : Nat) (y : String), y ∈ (expandOnce V E)^[n] [x] → ReachP E x y := by
  intro n
  induction n with
  | zero =>
      intro y h
      simp at h
      exact h ▸ Relation.ReflTransGen.refl
  | succ n ih =>
      intro y h
      rw [Function.iterate_succ', Function.comp_apply] at h
      rcases mem_expandOnce h with h2 | h2
      · exact ih y h2
      · obtain ⟨_, z, hz, hadj⟩ := h2
        exact Relation.ReflTransGen.tail (ih z hz) hadj

theorem reachP_of_mem_reachList {V : List String} {E : List Edge}
    {x y : String} (h : y ∈ reachList V E x) : ReachP E x y :=
  reachP_of_mem_iterate (V.length + 1) y h

theorem mem_reachList_of_reachP {V : List String} {E : List Edge}
    {x y : String} (hV : V.Nodup)
    (hE : ∀ e ∈ E, e.u ∈ V ∧ e.v ∈ V) (h : ReachP E x y) :
    y ∈ reachList V E x := by
  induction h with
  | refl => exact mem_reachList_self V E x
  | tail _ hadj ih =>
      rename_i b c _
      have hcV : c ∈ V := by
        obtain ⟨e, he, h1 | h2⟩ := hadj
        · exact h1.2 ▸ (hE e he).2
        · exact h2.1 ▸ (hE e he).1
      exact expandOnce_fix_closed (reachList_fix hV) c hcV ⟨b, ih, hadj⟩

theorem mem_reachList_iff {V : List String} {E : List Edge} {x y : String}
    (hV : V.Nodup) (hE : ∀ e ∈ E, e.u ∈ V ∧ e.v ∈ V) :
    y ∈ reachList V E x ↔ ReachP E x y :=
  ⟨reachP_of_mem_reachList, mem_reachList_of_reachP hV hE⟩

/-! ### Components partition the node set -/

theorem ids_nodup {G : Graph} (hWF : G.WF) : G.ids.Nodup := hWF.1

theorem edges_mem_ids {G : Graph} (hWF : G.WF) :
    ∀ e ∈ G.edges, e.u ∈ G.ids ∧ e.v ∈ G.ids := hWF.2

theorem mem_compOf_iff {G : Graph} (hWF : G.WF) {x y : String} :
    y ∈ G.compOf x ↔ y ∈ G.ids ∧ ReachP G.edges x y := by
  unfold Graph.compOf
  rw [List.mem_filter]
  constructor
  · rintro ⟨h1, h2⟩
    rw [contains_iff_mem,
      mem_reachList_iff (ids_nodup hWF) (edges_mem_ids hWF)] at h2
    exact ⟨h1, h2⟩
  · rintro ⟨h1, h2⟩
    refine ⟨h1, ?_⟩
    rw [contains_iff_mem,
      mem_reachList_iff (ids_nodup hWF) (edges_mem_ids hWF)]
    exact h2

theorem compOf_subset (G : Graph) (x : String) : G.compOf x ⊆ G.ids :=
  (List.filter_sublist G.ids).subset

theorem compOf_nodup {G : Graph} (hWF : G.WF) (x : String) :
    (G.compOf x).Nodup :=
  (ids_nodup hWF).filter _

theorem mem_own_compOf {G : Graph} {x : String} (hx : x ∈ G.ids) :
    x ∈ G.compOf x := by
  unfold Graph.compOf
  rw [List.mem_filter]
  exact ⟨hx, contains_iff_mem.2 (mem_reachList_self _ _ _)⟩

theorem compOf_congr {G : Graph} (hWF : G.WF) {x x2 : String}
    (h : ReachP G.edges x x2) : G.compOf x = G.compOf x2 := by
  unfold Graph.compOf
  refine List.filter_congr ?_
  intro y _
  have h1 : (reachList G.ids G.edges x).contains y = true ↔
      (reachList G.ids G.edges x2).contains y = true := by
    rw [contains_iff_mem, contains_iff_mem,
      mem_reachList_iff (ids_nodup hWF) (edges_mem_ids hWF),
      mem_reachList_iff (ids_nodup hWF) (edges_mem_ids hWF)]
    exact ⟨fun hr => (reachP_symm h).trans hr, fun hr => h.trans hr⟩
  exact Bool.eq_iff_iff.2 h1

theorem componentsFrom_shape (G : Graph) :
    ∀ (n : Nat) (pending : List String), pending.length ≤ n →
      ∀ c ∈ G.componentsFrom pending, ∃ r ∈ pending, c = G.compOf r := by
  intro n
  induction n with
  | zero =>
      intro pending hlen c hc
      have hpe : pending = [] := List.length_eq_zero.1 (Nat.le_zero.1 hlen)
      rw [hpe] at hc
      simp [Graph.componentsFrom] at hc
  | succ n ih =>
      intro pending hlen c hc
      cases pending with
      | nil => simp [Graph.componentsFrom] at hc
      | cons p rest =>
          simp only [Graph.componentsFrom] at hc
          rcases List.mem_cons.1 hc with rfl | hc2
          · exact ⟨p, List.mem_cons_self p rest, rfl⟩
          · have hlen2 : (rest.filter
                (fun y => !((G.compOf p).contains y))).length ≤ n := by
              have := List.length_filter_le
                (fun y => !((G.compOf p).contains y)) rest
              simp only [List.length_cons] at hlen
              omega
            obtain ⟨r, hr, hcr⟩ := ih _ hlen2 c hc2
            exact ⟨r, List.mem_cons_of_mem p
              ((List.filter_sublist rest).subset hr), hcr⟩

theorem componentsFrom_covers (G : Graph) (hWF : G.WF) :
    ∀ (n : Nat) (pending : List String), pending.length ≤ n →
      pending ⊆ G.ids →
      ∀ x ∈ pending, ∃ c ∈ G.componentsFrom pending, x ∈ c := by
  intro n
  induction n with
  | zero =>
      intro pending hlen _ x hx
      have hpe : pending = [] := List.length_eq_zero.1 (Nat.le_zero.1 hlen)
      rw [hpe] at hx
      simp at hx
  | succ n ih =>
      intro pending hlen hsub x hx
      cases pending with
      | nil => simp at hx
      | cons p rest =>
          simp only [Graph.componentsFrom]
          by_cases hxc : x ∈ G.compOf p
          · exact ⟨G.compOf p, List.mem_cons_self _ _, hxc⟩
          · have hxrest : x ∈ rest := by
              rcases List.mem_cons.1 hx with rfl | h
              · exact absurd (mem_own_compOf (hsub (List.mem_cons_self _ _)))
                  hxc
              · exact h
            have hxfil : x ∈ rest.filter
                (fun y => !((G.compOf p).contains y)) := by
              rw [List.mem_filter]
              refine ⟨hxrest, ?_⟩
              rw [Bool.not_eq_true', ← Bool.not_eq_true, contains_iff_mem]
              exact hxc
            have hlen2 : (rest.filter
                (fun y => !((G.compOf p).contains y))).length ≤ n := by
              have := List.length_filter_le
                (fun y => !((G.compOf p).contains y)) rest
              simp only [List.length_cons] at hlen
              omega
            have hsub2 : rest.filter (fun y => !((G.compOf p).contains y)) ⊆
                G.ids :=
              fun a ha => hsub (List.mem_cons_of_mem p
                ((List.filter_sublist rest).subset ha))
            obtain ⟨c, hc, hxc2⟩ := ih _ hlen2 hsub2 x hxfil
            exact ⟨c, List.mem_cons_of_mem _ hc, hxc2⟩

theorem componentsFrom_pairwise (G : Graph) (hWF : G.WF) :
    ∀ (n : Nat) (pending : List String), pending.length ≤ n →
      pending ⊆ G.ids →
      (G.componentsFrom pending).Pairwise (fun c1 c2 => ∀ z ∈ c1, z ∉ c2) := by
  intro n
  induction n with
  | zero =>
      intro pending hlen _
      have hpe : pending = [] := List.length_eq_zero.1 (Nat.le_zero.1 hlen)
      rw [hpe]
      simp [Graph.componentsFrom]
  | succ n ih =>
      intro pending hlen hsub
      cases pending with
      | nil => simp [Graph.componentsFrom]
      | cons p rest =>
          simp only [Graph.componentsFrom]
          have hlen2 : (rest.filter
              (fun y => !((G.compOf p).contains y))).length ≤ n := by
            have := List.length_filter_le
              (fun y => !((G.compOf p).contains y)) rest
            simp only [List.length_cons] at hlen
            omega
          have hsub2 : rest.filter (fun y => !((G.compOf p).contains y)) ⊆
              G.ids :=
            fun a ha => hsub (List.mem_cons_of_mem p
              ((List.filter_sublist rest).subset ha))
          refine List.Pairwise.cons ?_ (ih _ hlen2 hsub2)
          intro c2 hc2 z hz1 hz2
          obtain ⟨r, hr, rfl⟩ := componentsFrom_shape G _ _ hlen2 c2 hc2
          have hrnot : r ∉ G.compOf p := by
            rcases List.mem_filter.1 hr with ⟨_, hcond⟩
            rw [Bool.not_eq_true', ← Bool.not_eq_true, contains_iff_mem]
              at hcond
            exact hcond
          have hrids : r ∈ G.ids := hsub2 hr
          have h1 := (mem_compOf_iff hWF).1 hz1
          have h2 := (mem_compOf_iff hWF).1 hz2
          exact hrnot ((mem_compOf_iff hWF).2
            ⟨hrids, h1.2.trans (reachP_symm h2.2)⟩)

/-! ### `find_clusters`: the components, sorted by descending size -/

theorem find_clusters_perm (G : Graph) :
    (find_clusters G).Perm (G.componentsFrom G.ids) :=
  List.mergeSort_perm _ _

theorem find_clusters_shape {G : Graph} :
    ∀ c ∈ find_clusters G, ∃ r ∈ G.ids, c = G.compOf r := by
  intro c hc
  exact componentsFrom_shape G G.ids.length G.ids le_rfl c
    ((find_clusters_perm G).mem_iff.1 hc)

theorem find_clusters_covers {G : Graph} (hWF : G.WF) :
    ∀ x ∈ G.ids, ∃ c ∈ find_clusters G, x ∈ c := by
  intro x hx
  obtain ⟨c, hc, hxc⟩ := componentsFrom_covers G hWF G.ids.length G.ids le_rfl
    (fun a ha => ha) x hx
  exact ⟨c, (find_clusters_perm G).mem_iff.2 hc, hxc⟩

theorem find_clusters_mem_ids {G : Graph} :
    ∀ c ∈ find_clusters G, ∀ z ∈ c, z ∈ G.ids := by
  intro c hc z hz
  obtain ⟨r, _, rfl⟩ := find_clusters_shape c hc
  exact compOf_subset G r hz

theorem find_clusters_pairwise {G : Graph} (hWF : G.WF) :
    (find_clusters G).Pairwise (fun c1 c2 => ∀ z ∈ c1, z ∉ c2) := by
  have hsym : ∀ {c1 c2 : List String},
      (∀ z ∈ c1, z ∉ c2) → ∀ z ∈ c2, z ∉ c1 :=
    fun h z hz2 hz1 => h z hz1 hz2
  exact (List.Perm.pairwise_iff hsym (find_clusters_perm G)).2
    (componentsFrom_pairwise G hWF G.ids.length G.ids le_rfl (fun a ha => ha))

theorem find_clusters_sorted (G : Graph) :
    (find_clusters G).Pairwise (fun c1 c2 => c2.length ≤ c1.length) := by
  have h := @List.sorted_mergeSort (List String)
    (fun c1 c2 => decide (c2.length ≤ c1.length))
    (fun a b c hab hbc => by
      simp only [decide_eq_true_eq] at hab hbc ⊢
      omega)
    (fun a b => by
      simp only [Bool.or_eq_true, decide_eq_true_eq]
      omega)
    (G.componentsFrom G.ids)
  refine h.imp ?_
  intro a b hab
  simpa using hab

theorem find_clusters_each_nodup {G : Graph} (hWF : G.WF) :
    ∀ c ∈ find_clusters G, c.Nodup := by
  intro c hc
  obtain ⟨r, _, rfl⟩ := find_clusters_shape c hc
  exact compOf_nodup hWF r

theorem filter_eq_single {l : List String} {x : String} {p : String → Bool}
    (hl : l.Nodup) (hx : x ∈ l) (hp : ∀ y ∈ l, (p y = true ↔ y = x)) :
    l.filter p = [x] := by
  induction l with
  | nil => simp at hx
  | cons a t ih =>
      rcases List.mem_cons.1 hx with rfl | hxt
      · have hpa : p x = true := (hp x (List.mem_cons_self x t)).2 rfl
        rw [List.filter_cons_of_pos hpa]
        have : t.filter p = [] := by
          rw [List.filter_eq_nil_iff]
          intro b hb hpb
          have := (hp b (List.mem_cons_of_mem x hb)).1 hpb
          subst this
          exact (List.nodup_cons.1 hl).1 hb
        rw [this]
      · have hpa : p a = false := by
          rw [← Bool.not_eq_true]
          intro hpa
          have := (hp a (List.mem_cons_self a t)).1 hpa
          subst this
          exact (List.nodup_cons.1 hl).1 hxt
        rw [List.filter_cons_of_neg (by simp [hpa])]
        exact ih (List.nodup_cons.1 hl).2 hxt
          (fun y hy => hp y (List.mem_cons_of_mem a hy))

theorem reachP_isolated {G : Graph} {x y : String}
    (hiso : ∀ e ∈ G.edges, e.u ≠ x ∧ e.v ≠ x) (h : ReachP G.edges x y) :
    y = x := by
  rcases Relation.ReflTransGen.cases_head h with rfl | ⟨z, hadj, _⟩
  · rfl
  · exfalso
    obtain ⟨e, he, h1 | h2⟩ := hadj
    · exact (hiso e he).1 h1.1
    · exact (hiso e he).2 h2.2

theorem compOf_isolated {G : Graph} (hWF : G.WF) {x : String}
    (hx : x ∈ G.ids) (hiso : ∀ e ∈ G.edges, e.u ≠ x ∧ e.v ≠ x) :
    G.compOf x = [x] := by
  unfold Graph.compOf
  refine filter_eq_single (ids_nodup hWF) hx ?_
  intro y hy
  rw [contains_iff_mem, mem_reachList_iff (ids_nodup hWF) (edges_mem_ids hWF)]
  exact ⟨fun h => reachP_isolated hiso h,
    fun h => h ▸ Relation.ReflTransGen.refl⟩

theorem isolated_singleton_cluster {G : Graph} (hWF : G.WF) {x : String}
    (hx : x ∈ G.ids) (hiso : ∀ e ∈ G.edges, e.u ≠ x ∧ e.v ≠ x) :
    [x] ∈ find_clusters G := by
  obtain ⟨c, hc, hxc⟩ := find_clusters_covers hWF x hx
  obtain ⟨r, _, rfl⟩ := find_clusters_shape c hc
  have hrx : ReachP G.edges r x := ((mem_compOf_iff hWF).1 hxc).2
  have hr_eq : r = x := reachP_isolated hiso (reachP_symm hrx)
  rw [hr_eq, compOf_isolated hWF hx hiso] at hc
  exact hc

/-! ### Claim C4 -/

/-! ### Claim C4 -/

/-- Claim C4 (code bug): `get_quality_summary` on no data returns the empty
dict, but `merge_all_clusters` on an empty cluster list hits the unguarded
percentage division `100*with_npi/len(physicians)` in its summary logging
and raises `ZeroDivisionError` instead of returning an empty list. -/
theorem merge_all_clusters_empty_raises :
    merge_all_clusters (fun _ => ("abcdef012345")) { nodes := [], edges := [] }
        [] = Except.error ("ZeroDivisionError") ∧
    get_quality_summary [] = none :=
  ⟨rfl, rfl⟩

/-! ### Claim C5 -/

/-- Claim C5: for every (well-formed) graph, `find_clusters` returns
pairwise-disjoint duplicate-free clusters whose union is exactly the node
set; an isolated node is its own singleton cluster; and the list is sorted
by descending cluster size. -/
theorem find_clusters_partition (G : Graph) (hWF : G.WF) :
    (∀ x, x ∈ G.ids ↔ ∃ c ∈ find_clusters G, x ∈ c) ∧
    (find_clusters G).Pairwise (fun c1 c2 => ∀ z ∈ c1, z ∉ c2) ∧
    (∀ c ∈ find_clusters G, c.Nodup) ∧
    (find_clusters G).Pairwise (fun c1 c2 => c2.length ≤ c1.length) ∧
    (∀ x ∈ G.ids, (∀ e ∈ G.edges, e.u ≠ x ∧ e.v ≠ x) →
      [x] ∈ find_clusters G) := by
  refine ⟨?_, find_clusters_pairwise hWF, find_clusters_each_nodup hWF,
    find_clusters_sorted G,
    fun x hx hiso => isolated_singleton_cluster hWF hx hiso⟩
  intro x
  constructor
  · exact find_clusters_covers hWF x
  · rintro ⟨c, hc, hxc⟩
    exact find_clusters_mem_ids c hc x hxc

/-- Witness for C5: a graph of four isolated nodes is well-formed and each
node is its own singleton cluster. -/
theorem find_clusters_partition_witness :
    sourcesGraph.WF ∧ [("R1")] ∈ find_clusters sourcesGraph := by
  have hWF : sourcesGraph.WF := by decide
  exact ⟨hWF, (find_clusters_partition sourcesGraph hWF).2.2.2.2 ("R1")
    (by decide) (by decide)⟩

/-! ### The weakest-edge folds -/

theorem weakestStep_isSome {cand : Edge → Bool} {acc : Option Edge}
    {e : Edge} (h : acc.isSome = true) :
    (weakestStep cand acc e).isSome = true := by
  unfold weakestStep
  split
  · cases acc with
    | none => rfl
    | some b =>
        show (if e.weight < b.weight then some e else some b).isSome = true
        split <;> rfl
  · exact h

theorem weakestStep_isSome_of_cand {cand : Edge → Bool} {acc : Option Edge}
    {e : Edge} (h : cand e = true) :
    (weakestStep cand acc e).isSome = true := by
  unfold weakestStep
  rw [if_pos h]
  cases acc with
  | none => rfl
  | some b =>
      show (if e.weight < b.weight then some e else some b).isSome = true
      split <;> rfl

theorem foldl_weakestStep_isSome {cand : Edge → Bool} :
    ∀ (l : List Edge) (acc : Option Edge),
      (acc.isSome = true ∨ ∃ e ∈ l, cand e = true) →
      (l.foldl (weakestStep cand) acc).isSome = true := by
  intro l
  induction l with
  | nil =>
      intro acc h
      rcases h with h | ⟨e, he, _⟩
      · simpa using h
      · simp at he
  | cons a t ih =>
      intro acc h
      rw [List.foldl_cons]
      rcases h with h | ⟨e, he, hce⟩
      · exact ih _ (Or.inl (weakestStep_isSome h))
      · rcases List.mem_cons.1 he with rfl | het
        · exact ih _ (Or.inl (weakestStep_isSome_of_cand hce))
        · exact ih _ (Or.inr ⟨e, het, hce⟩)

theorem foldl_weakestStep_mem {cand : Edge → Bool} :
    ∀ (l : List Edge) (acc : Option Edge) (b : Edge),
      l.foldl (weakestStep cand) acc = some b → b ∈ l ∨ acc = some b := by
  intro l
  induction l with
  | nil =>
      intro acc b h
      simp at h
      exact Or.inr h
  | cons a t ih =>
      intro acc b h
      rw [List.foldl_cons] at h
      rcases ih _ b h with hbt | hacc
      · exact Or.inl (List.mem_cons_of_mem a hbt)
      · unfold weakestStep at hacc
        by_cases hc : cand a = true
        · rw [if_pos hc] at hacc
          cases acc with
          | none =>
              cases Option.some_inj.1 hacc
              exact Or.inl (List.mem_cons_self a t)
          | some b2 =>
              have hacc2 : (if a.weight < b2.weight then some a else some b2) =
                  some b := hacc
              by_cases hw : a.weight < b2.weight
              · rw [if_pos hw] at hacc2
                cases Option.some_inj.1 hacc2
                exact Or.inl (List.mem_cons_self a t)
              · rw [if_neg hw] at hacc2
                exact Or.inr hacc2
        · rw [if_neg hc] at hacc
          exact Or.inr hacc

/-! ### A conflicted cluster always yields a removable candidate edge -/

theorem mem_clusterNpiSet {G : Graph} {c : List String} {s : String} :
    s ∈ clusterNpiSet G c ↔
      (∃ n ∈ c, G.npiOf n = some s) ∧ ¬(s = "") := by
  unfold clusterNpiSet
  rw [List.mem_toFinset, List.mem_filter, List.mem_filterMap]
  simp

theorem subEdges_mem {G : Graph} {c : List String} {e : Edge} :
    e ∈ subEdges G c ↔ e ∈ G.edges ∧ e.u ∈ c ∧ e.v ∈ c := by
  unfold subEdges
  rw [List.mem_filter]
  simp [contains_iff_mem]

theorem bool_cand_or {x y : Bool} (hy : y = true) :
    (x || (!x && y)) = true := by
  cases x <;> simp [hy]

theorem npiEdgeCandidate_of_touch {G : Graph} {e : Edge} {n s : String}
    (hn : G.npiOf n = some s) (hs : ¬(s = ""))
    (htouch : e.u = n ∨ e.v = n) : npiEdgeCandidate G e = true := by
  have htr : (!(pyFalsy (G.npiOf e.u)) || !(pyFalsy (G.npiOf e.v))) = true := by
    rcases htouch with h | h
    · rw [h, hn]
      simp [pyFalsy, hs]
    · rw [h, hn]
      simp [pyFalsy, hs]
  show ((!(pyFalsy (G.npiOf e.u)) && !(pyFalsy (G.npiOf e.v)) &&
      !(G.npiOf e.u == G.npiOf e.v)) ||
    (!(!(pyFalsy (G.npiOf e.u)) && !(pyFalsy (G.npiOf e.v)) &&
      !(G.npiOf e.u == G.npiOf e.v)) &&
      (!(pyFalsy (G.npiOf e.u)) || !(pyFalsy (G.npiOf e.v))))) = true
  exact bool_cand_or htr

theorem conflict_cluster_has_cross_edge {G : Graph} (hWF : G.WF)
    {c : List String} (hc : c ∈ find_clusters G)
    (hconf : hasConflictB G c = true) :
    ∃ e, find_weakest_cross_npi_edge G c = some e ∧ e ∈ subEdges G c := by
  unfold hasConflictB at hconf
  rw [decide_eq_true_eq, Finset.one_lt_card] at hconf
  obtain ⟨s, hsmem, t, htmem, hst⟩ := hconf
  obtain ⟨⟨n1, hn1c, hn1⟩, hs⟩ := mem_clusterNpiSet.1 hsmem
  obtain ⟨⟨n2, hn2c, hn2⟩, _⟩ := mem_clusterNpiSet.1 htmem
  obtain ⟨r, _, rfl⟩ := find_clusters_shape c hc
  have hne : n1 ≠ n2 := by
    intro h
    rw [h, hn2] at hn1
    exact hst (Option.some_inj.1 hn1).symm
  have hr1 : ReachP G.edges r n1 := ((mem_compOf_iff hWF).1 hn1c).2
  have hr2 : ReachP G.edges r n2 := ((mem_compOf_iff hWF).1 hn2c).2
  have h12 : ReachP G.edges n1 n2 := (reachP_symm hr1).trans hr2
  rcases Relation.ReflTransGen.cases_head h12 with rfl | ⟨z, hadj, _⟩
  · exact absurd rfl hne
  · obtain ⟨e, he, hor⟩ := hadj
    have hzc : z ∈ G.compOf r := by
      refine (mem_compOf_iff hWF).2 ⟨?_, hr1.tail ⟨e, he, hor⟩⟩
      rcases hor with h | h
      · exact h.2 ▸ (edges_mem_ids hWF e he).2
      · exact h.1 ▸ (edges_mem_ids hWF e he).1
    have hesub : e ∈ subEdges G (G.compOf r) := by
      rw [subEdges_mem]
      rcases hor with h | h
      · exact ⟨he, h.1 ▸ hn1c, h.2 ▸ hzc⟩
      · exact ⟨he, h.1 ▸ hzc, h.2 ▸ hn1c⟩
    have hcand : npiEdgeCandidate G e = true := by
      refine npiEdgeCandidate_of_touch hn1 hs ?_
      rcases hor with h | h
      · exact Or.inl h.1
      · exact Or.inr h.2
    have hsome : ((subEdges G (G.compOf r)).foldl
        (weakestStep (npiEdgeCandidate G)) none).isSome = true :=
      foldl_weakestStep_isSome _ none (Or.inr ⟨e, hesub, hcand⟩)
    obtain ⟨e2, he2⟩ := Option.isSome_iff_exists.1 hsome
    refine ⟨e2, he2, ?_⟩
    rcases foldl_weakestStep_mem _ none e2 he2 with h | h
    · exact h
    · simp at h

/-! ### Frames, well-formedness and conflict preservation under edge
removal -/

theorem subEdges_sublist (G : Graph) (c : List String) :
    (subEdges G c).Sublist G.edges :=
  List.filter_sublist G.edges

theorem removeEdge_nodes (G : Graph) (x y : String) :
    (G.removeEdge x y).nodes = G.nodes := rfl

theorem removeEdge_sublist (G : Graph) (x y : String) :
    (G.removeEdge x y).edges.Sublist G.edges :=
  List.filter_sublist G.edges

theorem removeEdge_length_lt {G : Graph} {e : Edge} (he : e ∈ G.edges) :
    (G.removeEdge e.u e.v).edges.length < G.edges.length := by
  unfold Graph.removeEdge
  rw [List.length_filter_lt_length_iff_exists]
  refine ⟨e, he, ?_⟩
  simp [Edge.sameKey]

theorem ids_congr {G G2 : Graph} (hn : G2.nodes = G.nodes) :
    G2.ids = G.ids := by
  unfold Graph.ids
  rw [hn]

theorem WF_of_nodes_eq_edges_subset {G G2 : Graph} (hWF : G.WF)
    (hn : G2.nodes = G.nodes) (he : G2.edges ⊆ G.edges) : G2.WF := by
  constructor
  · rw [hn]
    exact hWF.1
  · intro e hee
    have h := hWF.2 e (he hee)
    rw [ids_congr hn]
    exact h

theorem npiOf_congr {G G2 : Graph} (hn : G2.nodes = G.nodes) (n : String) :
    G2.npiOf n = G.npiOf n := by
  unfold Graph.npiOf Graph.nodeData
  rw [hn]

theorem adj_mono {E E2 : List Edge} (h : E2 ⊆ E) {x y : String}
    (ha : Adj E2 x y) : Adj E x y := by
  obtain ⟨e, he, hor⟩ := ha
  exact ⟨e, h he, hor⟩

theorem reachP_mono {E E2 : List Edge} (h : E2 ⊆ E) {x y : String}
    (hr : ReachP E2 x y) : ReachP E x y :=
  Relation.ReflTransGen.mono (fun _ _ ha => adj_mono h ha) hr

theorem clusterNpiSet_congr {G G2 : Graph} (hn : G2.nodes = G.nodes)
    (c : List String) : clusterNpiSet G2 c = clusterNpiSet G c := by
  unfold clusterNpiSet
  congr 1
  congr 1
  refine List.filterMap_congr ?_
  intro n _
  rw [npiOf_congr hn]

theorem clusterNpiSet_mono {G : Graph} {c c2 : List String} (hsub : c2 ⊆ c) :
    clusterNpiSet G c2 ⊆ clusterNpiSet G c := by
  intro s hs
  rw [mem_clusterNpiSet] at hs ⊢
  obtain ⟨⟨n, hn, hns⟩, hne⟩ := hs
  exact ⟨⟨n, hsub hn, hns⟩, hne⟩

theorem hasConflictB_eq_false_iff {G : Graph} {c : List String} :
    hasConflictB G c = false ↔ (clusterNpiSet G c).card ≤ 1 := by
  unfold hasConflictB
  simp

theorem noConflict_mono {G G2 : Graph} (hWF : G.WF) (hn : G2.nodes = G.nodes)
    (he : G2.edges ⊆ G.edges) (h : noConflict G) : noConflict G2 := by
  intro c2 hc2
  have hWF2 : G2.WF := WF_of_nodes_eq_edges_subset hWF hn he
  obtain ⟨r, hr, rfl⟩ := find_clusters_shape (G := G2) c2 hc2
  have hrG : r ∈ G.ids := by
    rw [← ids_congr hn]
    exact hr
  obtain ⟨c, hc, hrc⟩ := find_clusters_covers hWF r hrG
  obtain ⟨r2, _, rfl⟩ := find_clusters_shape c hc
  have hcomp : G.compOf r2 = G.compOf r :=
    compOf_congr hWF ((mem_compOf_iff hWF).1 hrc).2
  have hcc := hasConflictB_eq_false_iff.1 (h _ hc)
  rw [hcomp] at hcc
  have hsub : G2.compOf r ⊆ G.compOf r := by
    intro z hz
    have hz2 := (mem_compOf_iff hWF2).1 hz
    refine (mem_compOf_iff hWF).2 ⟨?_, reachP_mono he hz2.2⟩
    rw [← ids_congr hn]
    exact hz2.1
  rw [hasConflictB_eq_false_iff, clusterNpiSet_congr hn]
  calc (clusterNpiSet G (G2.compOf r)).card
      ≤ (clusterNpiSet G (G.compOf r)).card :=
        Finset.card_le_card (clusterNpiSet_mono hsub)
    _ ≤ 1 := hcc

/-! ### The NPI-conflict loop reaches the conflict-free fixpoint -/

theorem pruneNpiLoop_spec : ∀ (n : Nat) (G : Graph), G.WF →
    G.edges.length < n →
    noConflict (pruneNpiLoop n G) ∧ (pruneNpiLoop n G).nodes = G.nodes ∧
      (pruneNpiLoop n G).edges.Sublist G.edges := by
  intro n
  induction n with
  | zero =>
      intro G _ hlen
      omega
  | succ n ih =>
      intro G hWF hlen
      have hred : pruneNpiLoop (n + 1) G =
          (match npiConflictStep G with
           | none => G
           | some G2 => pruneNpiLoop n G2) := rfl
      rw [hred]
      cases hstep : npiConflictStep G with
      | none =>
          refine ⟨?_, rfl, List.Sublist.refl _⟩
          unfold npiConflictStep at hstep
          cases hfind : (find_clusters G).find? (fun c => hasConflictB G c) with
          | none =>
              intro c hc
              have := List.find?_eq_none.1 hfind c hc
              simpa using this
          | some c =>
              rw [hfind] at hstep
              have hstep2 : (match find_weakest_cross_npi_edge G c with
                  | none => some G
                  | some e => some (G.removeEdge e.u e.v)) = none := hstep
              cases hwk : find_weakest_cross_npi_edge G c <;>
                rw [hwk] at hstep2 <;> simp at hstep2
      | some G2 =>
          unfold npiConflictStep at hstep
          cases hfind : (find_clusters G).find? (fun c => hasConflictB G c) with
          | none =>
              rw [hfind] at hstep
              simp at hstep
          | some c =>
              rw [hfind] at hstep
              have hstep2 : (match find_weakest_cross_npi_edge G c with
                  | none => some G
                  | some e => some (G.removeEdge e.u e.v)) = some G2 := hstep
              have hcmem := List.mem_of_find?_eq_some hfind
              have hconf := List.find?_some hfind
              obtain ⟨e, hwe, hesub⟩ :=
                conflict_cluster_has_cross_edge hWF hcmem hconf
              rw [hwe] at hstep2
              have hG2 : G2 = G.removeEdge e.u e.v :=
                (Option.some_inj.1 hstep2).symm
              subst hG2
              have heG : e ∈ G.edges := (subEdges_sublist G c).subset hesub
              have hWF2 : (G.removeEdge e.u e.v).WF :=
                WF_of_nodes_eq_edges_subset hWF rfl
                  (removeEdge_sublist G e.u e.v).subset
              have hlt := removeEdge_length_lt heG
              obtain ⟨h1, h2, h3⟩ := ih (G.removeEdge e.u e.v) hWF2 (by omega)
              exact ⟨h1, h2, h3.trans (removeEdge_sublist G e.u e.v)⟩

theorem prune_npi_conflicts_spec {G : Graph} (hWF : G.WF) :
    noConflict (prune_npi_conflicts G) ∧
      (prune_npi_conflicts G).nodes = G.nodes ∧
      (prune_npi_conflicts G).edges.Sublist G.edges :=
  pruneNpiLoop_spec (G.edges.length + 1) G hWF (by omega)

/-! ### Every pipeline step only removes edges -/

theorem graph_frame_trans {G1 G2 G3 : Graph}
    (h12 : G2.nodes = G1.nodes ∧ G2.edges.Sublist G1.edges)
    (h23 : G3.nodes = G2.nodes ∧ G3.edges.Sublist G2.edges) :
    G3.nodes = G1.nodes ∧ G3.edges.Sublist G1.edges :=
  ⟨h23.1.trans h12.1, h23.2.trans h12.2⟩

theorem foldl_graph_frame {α : Type} (f : Graph → α → Graph)
    (hf : ∀ g a, (f g a).nodes = g.nodes ∧ (f g a).edges.Sublist g.edges) :
    ∀ (l : List α) (g : Graph),
      (l.foldl f g).nodes = g.nodes ∧ (l.foldl f g).edges.Sublist g.edges := by
  intro l
  induction l with
  | nil => exact fun g => ⟨rfl, List.Sublist.refl _⟩
  | cons a t ih =>
      intro g
      rw [List.foldl_cons]
      exact graph_frame_trans (hf g a) (ih (f g a))

theorem prune_low_confidence_edges_frame (G : Graph) (t : ℚ) :
    (prune_low_confidence_edges G t).nodes = G.nodes ∧
    (prune_low_confidence_edges G t).edges.Sublist G.edges :=
  ⟨rfl, List.filter_sublist _⟩

theorem pruneNpiLoop_frame : ∀ (n : Nat) (G : Graph),
    (pruneNpiLoop n G).nodes = G.nodes ∧
    (pruneNpiLoop n G).edges.Sublist G.edges := by
  intro n
  induction n with
  | zero => exact fun G => ⟨rfl, List.Sublist.refl _⟩
  | succ n ih =>
      intro G
      have hred : pruneNpiLoop (n + 1) G =
          (match npiConflictStep G with
           | none => G
           | some G2 => pruneNpiLoop n G2) := rfl
      rw [hred]
      cases hstep : npiConflictStep G with
      | none => exact ⟨rfl, List.Sublist.refl _⟩
      | some G2 =>
          have hfr : G2.nodes = G.nodes ∧ G2.edges.Sublist G.edges := by
            unfold npiConflictStep at hstep
            cases hfind : (find_clusters G).find?
                (fun c => hasConflictB G c) with
            | none =>
                rw [hfind] at hstep
                simp at hstep
            | some c =>
                rw [hfind] at hstep
                have hstep2 : (match find_weakest_cross_npi_edge G c with
                    | none => some G
                    | some e => some (G.removeEdge e.u e.v)) = some G2 := hstep
                cases hwk : find_weakest_cross_npi_edge G c with
                | none =>
                    rw [hwk] at hstep2
                    cases Option.some_inj.1 hstep2
                    exact ⟨rfl, List.Sublist.refl _⟩
                | some e =>
                    rw [hwk] at hstep2
                    cases Option.some_inj.1 hstep2
                    exact ⟨rfl, removeEdge_sublist G e.u e.v⟩
          exact graph_frame_trans hfr (ih G2)

theorem prune_npi_conflicts_frame (G : Graph) :
    (prune_npi_conflicts G).nodes = G.nodes ∧
    (prune_npi_conflicts G).edges.Sublist G.edges :=
  pruneNpiLoop_frame (G.edges.length + 1) G

theorem oversizedPass_frame (G : Graph) (oversized : List (List String)) :
    (oversizedPass G oversized).nodes = G.nodes ∧
    (oversizedPass G oversized).edges.Sublist G.edges := by
  refine foldl_graph_frame _ ?_ oversized G
  intro g c
  cases findWeakestEdge g c with
  | none => exact ⟨rfl, List.Sublist.refl _⟩
  | some e => exact ⟨rfl, removeEdge_sublist g e.u e.v⟩

theorem pruneOversizedIter_spec (max_size : Nat) :
    ∀ (n : Nat) (G : Graph),
      (pruneOversizedIter max_size n G).1.nodes = G.nodes ∧
      (pruneOversizedIter max_size n G).1.edges.Sublist G.edges ∧
      (pruneOversizedIter max_size n G).2 ≤ n := by
  intro n
  induction n with
  | zero => exact fun G => ⟨rfl, List.Sublist.refl _, le_rfl⟩
  | succ n ih =>
      intro G
      have hred : pruneOversizedIter max_size (n + 1) G =
          (if ((find_clusters G).filter
              (fun c => max_size < c.length)).isEmpty then (G, 0)
           else
             ((pruneOversizedIter max_size n (oversizedPass G
                ((find_clusters G).filter (fun c => max_size < c.length)))).1,
              (pruneOversizedIter max_size n (oversizedPass G
                ((find_clusters G).filter
                  (fun c => max_size < c.length)))).2 + 1)) := rfl
      rw [hred]
      by_cases hov : ((find_clusters G).filter
          (fun c => max_size < c.length)).isEmpty = true
      · rw [if_pos hov]
        exact ⟨rfl, List.Sublist.refl _, by omega⟩
      · rw [if_neg hov]
        obtain ⟨h1, h2, h3⟩ := ih (oversizedPass G
          ((find_clusters G).filter (fun c => max_size < c.length)))
        obtain ⟨h4, h5⟩ := oversizedPass_frame G
          ((find_clusters G).filter (fun c => max_size < c.length))
        exact ⟨h1.trans h4, h2.trans h5, by omega⟩

theorem prune_oversized_clusters_frame (G : Graph) (m : Nat) :
    (prune_oversized_clusters G m).nodes = G.nodes ∧
    (prune_oversized_clusters G m).edges.Sublist G.edges :=
  ⟨(pruneOversizedIter_spec m 1000 G).1, (pruneOversizedIter_spec m 1000 G).2.1⟩

theorem prune_weak_bridges_frame (G : Graph) (t : ℚ) :
    (prune_weak_bridges G t).nodes = G.nodes ∧
    (prune_weak_bridges G t).edges.Sublist G.edges := by
  refine foldl_graph_frame _ ?_ (find_clusters G) G
  intro g c
  by_cases hlen : c.length ≤ 2
  · rw [if_pos hlen]
    exact ⟨rfl, List.Sublist.refl _⟩
  · rw [if_neg hlen]
    refine foldl_graph_frame _ ?_ (bridges g c) g
    intro g2 e
    by_cases hw : e.weight < t
    · rw [if_pos hw]
      exact ⟨rfl, removeEdge_sublist g2 e.u e.v⟩
    · rw [if_neg hw]
      exact ⟨rfl, List.Sublist.refl _⟩

/-! ### Claim C10 -/

/-- Claim C10: every step of the pruning pipeline only removes edges: the
pipeline result has exactly the input's node table, and its edge table is a
sublist of the input's, each surviving edge keeping its weight, match type
and other attributes verbatim. -/
theorem full_pruning_pipeline_frame (G : Graph) (mew : ℚ) (mcs : Nat)
    (pc : Bool) :
    (full_pruning_pipeline G mew mcs pc).nodes = G.nodes ∧
    (full_pruning_pipeline G mew mcs pc).edges.Sublist G.edges := by
  have h1 := prune_low_confidence_edges_frame G (mew * (75/100))
  have h2 : (if pc then
        prune_npi_conflicts (prune_low_confidence_edges G (mew * (75/100)))
      else prune_low_confidence_edges G (mew * (75/100))).nodes =
        (prune_low_confidence_edges G (mew * (75/100))).nodes ∧
      (if pc then
        prune_npi_conflicts (prune_low_confidence_edges G (mew * (75/100)))
      else prune_low_confidence_edges G (mew * (75/100))).edges.Sublist
        (prune_low_confidence_edges G (mew * (75/100))).edges := by
    cases pc with
    | false =>
        rw [if_neg (by simp)]
        exact ⟨rfl, List.Sublist.refl _⟩
    | true =>
        rw [if_pos rfl]
        exact prune_npi_conflicts_frame _
  have h3 := prune_oversized_clusters_frame
    (if pc then
      prune_npi_conflicts (prune_low_confidence_edges G (mew * (75/100)))
    else prune_low_confidence_edges G (mew * (75/100))) mcs
  have h4 := prune_weak_bridges_frame
    (prune_oversized_clusters
      (if pc then
        prune_npi_conflicts (prune_low_confidence_edges G (mew * (75/100)))
      else prune_low_confidence_edges G (mew * (75/100))) mcs) mew
  exact graph_frame_trans (graph_frame_trans (graph_frame_trans h1 h2) h3) h4

/-! ### Claim C1 -/

theorem clusterWfNpiSet_card_le (G : Graph) (c : List String) :
    (clusterWfNpiSet G c).card ≤ (clusterNpiSet G c).card := by
  refine Finset.card_le_card ?_
  intro s hs
  unfold clusterWfNpiSet at hs
  unfold clusterNpiSet
  rw [List.mem_toFinset, List.mem_filter] at hs
  rw [List.mem_toFinset, List.mem_filter]
  refine ⟨hs.1, ?_⟩
  have h10 := hs.2
  simp only [Bool.and_eq_true, beq_iff_eq] at h10
  simp only [Bool.not_eq_true', beq_eq_false_iff_ne, ne_eq]
  intro hempty
  rw [hempty] at h10
  simp [String.length] at h10

/-- Claim C1: with conflict pruning enabled, every cluster of the graph
returned by `full_pruning_pipeline` holds at most one distinct well-formed
NPI — the NPI-conflict loop exits only with no conflicted component, and
the later steps only remove edges, which can only shrink a component's NPI
set. -/
theorem pipeline_npi_conflict_free (G : Graph) (mew : ℚ) (mcs : Nat)
    (hWF : G.WF) :
    ∀ c ∈ find_clusters (full_pruning_pipeline G mew mcs true),
      (clusterWfNpiSet (full_pruning_pipeline G mew mcs true) c).card ≤ 1 := by
  intro c hc
  have hWF1 : (prune_low_confidence_edges G (mew * (75/100))).WF :=
    WF_of_nodes_eq_edges_subset hWF rfl (List.filter_sublist _).subset
  obtain ⟨hnc2, hn2, he2⟩ := prune_npi_conflicts_spec hWF1
  have hWF2 : (prune_npi_conflicts
      (prune_low_confidence_edges G (mew * (75/100)))).WF :=
    WF_of_nodes_eq_edges_subset hWF1 hn2 he2.subset
  have h3 := prune_oversized_clusters_frame
    (prune_npi_conflicts (prune_low_confidence_edges G (mew * (75/100)))) mcs
  have h4 := prune_weak_bridges_frame
    (prune_oversized_clusters
      (prune_npi_conflicts (prune_low_confidence_edges G (mew * (75/100))))
      mcs) mew
  have h42 := graph_frame_trans h3 h4
  have hpipe : full_pruning_pipeline G mew mcs true =
      prune_weak_bridges
        (prune_oversized_clusters
          (prune_npi_conflicts
            (prune_low_confidence_edges G (mew * (75/100)))) mcs) mew := rfl
  have hnc4 : noConflict (full_pruning_pipeline G mew mcs true) := by
    rw [hpipe]
    exact noConflict_mono hWF2 h42.1 h42.2.subset hnc2
  have hfalse := hnc4 c hc
  calc (clusterWfNpiSet (full_pruning_pipeline G mew mcs true) c).card
      ≤ (clusterNpiSet (full_pruning_pipeline G mew mcs true) c).card :=
        clusterWfNpiSet_card_le _ c
    _ ≤ 1 := hasConflictB_eq_false_iff.1 hfalse

/-- Witness for C1: the two-node NPI-conflict graph is well-formed and after
the full pipeline every cluster holds at most one distinct well-formed
NPI. -/
theorem pipeline_npi_conflict_free_witness :
    conflictGraph.WF ∧
    ∀ c ∈ find_clusters (full_pruning_pipeline conflictGraph (40/100) 100 true),
      (clusterWfNpiSet (full_pruning_pipeline conflictGraph (40/100) 100 true)
        c).card ≤ 1 :=
  ⟨by decide, pipeline_npi_conflict_free conflictGraph (40/100) 100 (by decide)⟩

/-! ### Claim C9 -/

/-- Claim C9: on every well-formed finite graph, each round of the
NPI-conflict loop that detects a conflict finds a removable cross-NPI edge
and strictly decreases the edge count, so `prune_npi_conflicts` (run with
initial-edge-count-many rounds of fuel) exits with no conflicted component;
and the oversized-cluster loop performs at most its 1000-iteration cap. -/
theorem pruning_loops_terminate (G : Graph) (hWF : G.WF) :
    (∀ c ∈ find_clusters G, hasConflictB G c = true →
      ∃ e, find_weakest_cross_npi_edge G c = some e ∧
        (G.removeEdge e.u e.v).edges.length < G.edges.length) ∧
    noConflict (prune_npi_conflicts G) ∧
    (∀ max_size : Nat, (pruneOversizedIter max_size 1000 G).2 ≤ 1000) := by
  refine ⟨?_, (prune_npi_conflicts_spec hWF).1,
    fun m => (pruneOversizedIter_spec m 1000 G).2.2⟩
  intro c hc hconf
  obtain ⟨e, hwe, hesub⟩ := conflict_cluster_has_cross_edge hWF hc hconf
  exact ⟨e, hwe, removeEdge_length_lt ((subEdges_sublist G c).subset hesub)⟩

/-- Witness for C9 at the two-node conflict graph. -/
theorem pruning_loops_terminate_witness :
    conflictGraph.WF ∧
    ((∀ c ∈ find_clusters conflictGraph, hasConflictB conflictGraph c = true →
      ∃ e, find_weakest_cross_npi_edge conflictGraph c = some e ∧
        (conflictGraph.removeEdge e.u e.v).edges.length <
          conflictGraph.edges.length) ∧
    noConflict (prune_npi_conflicts conflictGraph) ∧
    (∀ max_size : Nat,
      (pruneOversizedIter max_size 1000 conflictGraph).2 ≤ 1000)) :=
  ⟨by decide, pruning_loops_terminate conflictGraph (by decide)⟩

/-! ### Claim C7 -/

theorem str_beq_comm (a b : String) : (a == b) = (b == a) := by
  by_cases h : a = b
  · rw [h]
  · have h1 : (a == b) = false := by
      simp [h]
    have h2 : (b == a) = false := by
      have hba : ¬b = a := fun hba => h hba.symm
      simp [hba]
    rw [h1, h2]

theorem ite_swap_same {c1 c2 : Prop} [Decidable c1] [Decidable c2]
    (x y : ℚ) :
    (if c1 then x else if c2 then x else y) =
      (if c2 then x else if c1 then x else y) := by
  by_cases h1 : c1 <;> by_cases h2 : c2 <;> simp [h1, h2]

theorem calculate_npi_match_comm (npi1 npi2 : Option String) :
    calculate_npi_match npi1 npi2 = calculate_npi_match npi2 npi1 := by
  unfold calculate_npi_match
  rw [Bool.or_comm (pyFalsy npi1) (pyFalsy npi2),
    Bool.or_comm (!((pyStrip (npi1.getD (""))).length == 10))
      (!((pyStrip (npi2.getD (""))).length == 10)),
    Bool.or_comm (!(pyIsDigitStr (pyStrip (npi1.getD ("")))))
      (!(pyIsDigitStr (pyStrip (npi2.getD (""))))),
    str_beq_comm (pyStrip (npi1.getD (""))) (pyStrip (npi2.getD ("")))]

theorem calculate_first_name_similarity_comm (ext : ExternalFns)
    (hjw : ∀ s t, ext.jaroWinkler s t = ext.jaroWinkler t s)
    (first1 first2 : Option String) :
    calculate_first_name_similarity ext first1 first2 =
      calculate_first_name_similarity ext first2 first1 := by
  unfold calculate_first_name_similarity
  rw [Bool.or_comm (pyFalsy first1) (pyFalsy first2),
    str_beq_comm (pyStrip (pyUpper (first1.getD (""))))
      (pyStrip (pyUpper (first2.getD ("")))),
    hjw (pyStrip (pyUpper (first1.getD (""))))
      (pyStrip (pyUpper (first2.getD (""))))]
  by_cases hf : (pyFalsy first2 || pyFalsy first1) = true
  · rw [if_pos hf, if_pos hf]
  · rw [if_neg hf, if_neg hf]
    by_cases he : (pyStrip (pyUpper (first2.getD (""))) ==
        pyStrip (pyUpper (first1.getD ("")))) = true
    · rw [if_pos he, if_pos he]
    · rw [if_neg he, if_neg he]
      exact ite_swap_same _ _

theorem calculate_last_name_similarity_comm (ext : ExternalFns)
    (hjw : ∀ s t, ext.jaroWinkler s t = ext.jaroWinkler t s)
    (last1 last2 : Option String) :
    calculate_last_name_similarity ext last1 last2 =
      calculate_last_name_similarity ext last2 last1 := by
  unfold calculate_last_name_similarity
  rw [Bool.or_comm (pyFalsy last1) (pyFalsy last2),
    str_beq_comm
      (removeApostropheHyphenSpace (pyStrip (pyUpper (last1.getD ("")))))
      (removeApostropheHyphenSpace (pyStrip (pyUpper (last2.getD (""))))),
    hjw (removeApostropheHyphenSpace (pyStrip (pyUpper (last1.getD ("")))))
      (removeApostropheHyphenSpace (pyStrip (pyUpper (last2.getD ("")))))]

theorem calculate_distance_miles_comm (ext : ExternalFns)
    (hdm : ∀ a b c d, ext.haversineMiles a b c d = ext.haversineMiles c d a b)
    (lat1 lon1 lat2 lon2 : Option ℚ) :
    calculate_distance_miles ext lat1 lon1 lat2 lon2 =
      calculate_distance_miles ext lat2 lon2 lat1 lon1 := by
  cases lat1 <;> cases lon1 <;> cases lat2 <;> cases lon2 <;>
    first
      | rfl
      | exact congrArg some (hdm _ _ _ _)

theorem calculate_location_score_comm (ext : ExternalFns)
    (hdm : ∀ a b c d, ext.haversineMiles a b c d = ext.haversineMiles c d a b)
    (lat1 lon1 lat2 lon2 : Option ℚ) (state1 state2 : Option String) :
    calculate_location_score ext lat1 lon1 lat2 lon2 state1 state2 =
      calculate_location_score ext lat2 lon2 lat1 lon1 state2 state1 := by
  unfold calculate_location_score
  rw [← calculate_distance_miles_comm ext hdm lat1 lon1 lat2 lon2]
  cases calculate_distance_miles ext lat1 lon1 lat2 lon2 with
  | some d => rfl
  | none =>
      rw [Bool.and_comm (!(pyFalsy state1)) (!(pyFalsy state2)),
        str_beq_comm (pyUpper (state1.getD ("")))
          (pyUpper (state2.getD ("")))]

theorem calculate_specialty_similarity_comm (ext : ExternalFns)
    (hfr : ∀ s t, ext.fuzzRatioFn s t = ext.fuzzRatioFn t s)
    (spec1 spec2 : Option String) :
    calculate_specialty_similarity ext spec1 spec2 =
      calculate_specialty_similarity ext spec2 spec1 := by
  unfold calculate_specialty_similarity
  rw [Bool.or_comm (pyFalsy spec1) (pyFalsy spec2),
    str_beq_comm (pyStrip (pyUpper (spec1.getD (""))))
      (pyStrip (pyUpper (spec2.getD ("")))),
    str_beq_comm (getCanonicalSpecialty (pyStrip (pyUpper (spec1.getD ("")))))
      (getCanonicalSpecialty (pyStrip (pyUpper (spec2.getD (""))))),
    hfr (pyStrip (pyUpper (spec1.getD (""))))
      (pyStrip (pyUpper (spec2.getD (""))))]

theorem calculate_similarity_name (ext : ExternalFns)
    (a b : PhysicianRecord) :
    (calculate_similarity ext a b).name_similarity =
      calculate_last_name_similarity ext a.name_last b.name_last * (6/10) +
        calculate_first_name_similarity ext a.name_first b.name_first *
          (4/10) := rfl

theorem calculate_similarity_specialty (ext : ExternalFns)
    (a b : PhysicianRecord) :
    (calculate_similarity ext a b).specialty_match =
      calculate_specialty_similarity ext a.specialty b.specialty := rfl

theorem calculate_similarity_location (ext : ExternalFns)
    (a b : PhysicianRecord) :
    (calculate_similarity ext a b).location_score =
      calculate_location_score ext a.latitude a.longitude b.latitude
        b.longitude a.facility_state b.facility_state := rfl

theorem similarity_scores_ext {s1 s2 : SimilarityScores}
    (h1 : s1.npi_match = s2.npi_match)
    (h2 : s1.name_similarity = s2.name_similarity)
    (h3 : s1.specialty_match = s2.specialty_match)
    (h4 : s1.location_score = s2.location_score)
    (h5 : s1.overall_score = s2.overall_score) : s1 = s2 := by
  cases s1
  cases s2
  simp_all

/-- Claim C7: `calculate_similarity` is symmetric in every component
(assuming only the documented symmetry of the external primitives it calls:
Jaro-Winkler, the fuzzy ratio and the haversine distance), and it is total
with absent fields degrading to the spec's neutral/zero values: missing NPI
⇒ unknown, missing first name ⇒ 0.5, missing last name ⇒ 0.0, missing
specialty ⇒ unknown, no location information ⇒ 0.2. -/
theorem calculate_similarity_symmetric (ext : ExternalFns)
    (hjw : ∀ s t, ext.jaroWinkler s t = ext.jaroWinkler t s)
    (hfr : ∀ s t, ext.fuzzRatioFn s t = ext.fuzzRatioFn t s)
    (hdm : ∀ a b c d, ext.haversineMiles a b c d = ext.haversineMiles c d a b) :
    (∀ a b : PhysicianRecord,
      calculate_similarity ext a b = calculate_similarity ext b a) ∧
    (∀ a b : PhysicianRecord, a.npi = none ∨ b.npi = none →
      (calculate_similarity ext a b).npi_match = none) ∧
    (∀ first2 : Option String,
      calculate_first_name_similarity ext none first2 = 1/2) ∧
    (∀ last2 : Option String,
      calculate_last_name_similarity ext none last2 = 0) ∧
    (∀ spec2 : Option String,
      calculate_specialty_similarity ext none spec2 = none) ∧
    (∀ state2 : Option String,
      calculate_location_score ext none none none none none state2 = 2/10) := by
  refine ⟨?_, ?_, fun first2 => rfl, fun last2 => rfl, fun spec2 => rfl,
    fun state2 => rfl⟩
  · intro a b
    have hnpi : (calculate_similarity ext a b).npi_match =
        (calculate_similarity ext b a).npi_match := by
      rw [calculate_similarity_npi_match, calculate_similarity_npi_match,
        calculate_npi_match_comm]
    have hname : (calculate_similarity ext a b).name_similarity =
        (calculate_similarity ext b a).name_similarity := by
      rw [calculate_similarity_name, calculate_similarity_name,
        calculate_last_name_similarity_comm ext hjw,
        calculate_first_name_similarity_comm ext hjw]
    have hspec : (calculate_similarity ext a b).specialty_match =
        (calculate_similarity ext b a).specialty_match := by
      rw [calculate_similarity_specialty, calculate_similarity_specialty,
        calculate_specialty_similarity_comm ext hfr]
    have hloc : (calculate_similarity ext a b).location_score =
        (calculate_similarity ext b a).location_score := by
      rw [calculate_similarity_location, calculate_similarity_location,
        calculate_location_score_comm ext hdm]
    have hover : (calculate_similarity ext a b).overall_score =
        (calculate_similarity ext b a).overall_score := by
      rw [calculate_similarity_overall, calculate_similarity_overall,
        calculate_npi_match_comm,
        calculate_last_name_similarity_comm ext hjw,
        calculate_first_name_similarity_comm ext hjw,
        calculate_location_score_comm ext hdm,
        calculate_specialty_similarity_comm ext hfr]
    exact similarity_scores_ext hnpi hname hspec hloc hover
  · intro a b hnone
    rw [calculate_similarity_npi_match]
    unfold calculate_npi_match
    rcases hnone with h | h <;> rw [h] <;> simp [pyFalsy]

/-- Witness for C7: a concrete symmetric external pack and a concrete record
pair. -/
theorem calculate_similarity_symmetric_witness :
    calculate_similarity constExt recNpi1 recNpi3 =
      calculate_similarity constExt recNpi3 recNpi1 :=
  (calculate_similarity_symmetric constExt (fun _ _ => rfl) (fun _ _ => rfl)
    (fun _ _ _ _ => rfl)).1 recNpi1 recNpi3

end PhysRes
